import Mathlib

/-!
# Verification of the goutils repository

Shallow embedding of the goutils Go repository: the generic collection
helpers (`maths`, `slices`, `maps`), the merge-request / branch cleanup
automation scripts, the merge-request title parsing regular expression,
and the config-file sort-order linter.  Go maps are modelled as
association lists without duplicate keys (lookup finds the first match,
assignment replaces in place or appends); machine integers and
timestamps are modelled as `Int`; fallible HTTP calls are supplied by a
pure environment record and the scripts additionally return the list of
external API calls they perform, in order.
-/

/-! ## maths package -/

namespace maths

/-- Go `maths.LessThan`: `return a < b`. -/
def LessThan {T : Type} [LinearOrder T] (a b : T) : Bool :=
  decide (a < b)

/-- Go `maths.GreaterThan`: `return a > b`. -/
def GreaterThan {T : Type} [LinearOrder T] (a b : T) : Bool :=
  decide (a > b)

end maths

/-! ## slices package -/

/-- The zero value of a Go type (`var zero T`). -/
class GoZero (T : Type) where
  zero : T

instance : GoZero Int := ⟨0⟩

instance : GoZero Nat := ⟨0⟩

instance : GoZero String := ⟨""⟩

namespace slices

/-- Go `slices.extremum`: returns the zero value on an empty slice, otherwise
starts from `items[0]` and replaces the accumulator whenever
`predicate item result` holds, scanning the whole slice. -/
def extremum {T : Type} [GoZero T] (items : List T) (predicate : T → T → Bool) : T :=
  match items with
  | [] => GoZero.zero
  | x :: rest =>
    List.foldl (fun result item => if predicate item result then item else result) x (x :: rest)

/-- Go `slices.Max`: `extremum(items, maths.GreaterThan[T])`. -/
def Max {T : Type} [GoZero T] [LinearOrder T] (items : List T) : T :=
  extremum items maths.GreaterThan

/-- Go `slices.Min`: `extremum(items, maths.LessThan[T])`. -/
def Min {T : Type} [GoZero T] [LinearOrder T] (items : List T) : T :=
  extremum items maths.LessThan

end slices

/-! ## maps package

A Go `map[K]V` is modelled as an association list whose keys are pairwise
distinct.  `mapAssign` is the Go assignment `m[k] = v` (replace the existing
entry or append a fresh one); `mapLookup` is `m[k]`. -/

namespace maps

def mapAssign {K V : Type} [DecidableEq K] : List (K × V) → K → V → List (K × V)
  | [], k, v => [(k, v)]
  | (k2, v2) :: rest, k, v =>
    if k2 = k then (k, v) :: rest else (k2, v2) :: mapAssign rest k v

def mapLookup {K V : Type} [DecidableEq K] : List (K × V) → K → Option V
  | [], _ => none
  | (k2, v2) :: rest, k => if k2 = k then some v2 else mapLookup rest k

/-- Go `maps.Merge`: make an empty map, copy every entry of `m2` into it, then
copy every entry of `m1` into it (so entries of `m1` overwrite those of `m2`). -/
def Merge {K V : Type} [DecidableEq K] (m1 m2 : List (K × V)) : List (K × V) :=
  let result := m2.foldl (fun acc e => mapAssign acc e.1 e.2) []
  m1.foldl (fun acc e => mapAssign acc e.1 e.2) result

end maps

/-! ## Merge-request title parsing

The cleanup scripts parse titles with the Go regular expression
`(.*)\s*\[([A-Z0-9]+-[0-9]+)\]` via `FindStringSubmatch`.  Go's regexp
package uses leftmost-first (Perl preference) semantics: the match starts
at the earliest possible position, and within that position a greedy
subexpression prefers the longest alternative first.  The pattern is not
anchored.  We embed the backtracking search for this concrete pattern:
`tryDot` enumerates the length of the greedy `(.*)` (longest first, only
non-newline characters), `tryWs` the length of the greedy `\s*` (longest
first, RE2 `\s = [\t\n\f\r ]`), and `matchToken` the literal token
`\[([A-Z0-9]+-[0-9]+)\]`.  Inside the token no backtracking is needed: a
shorter choice for a greedy `[A-Z0-9]+` (resp. `[0-9]+`) leaves a next
character inside the same class, which can never equal the required `-`
(resp. `]`), so the maximal runs are the only candidates. -/

namespace mrtitle

def isUpperDigit (c : Char) : Bool :=
  ('A' ≤ c && c ≤ 'Z') || ('0' ≤ c && c ≤ '9')

def isDigitChar (c : Char) : Bool :=
  '0' ≤ c && c ≤ '9'

/-- RE2 `\s`, the class `[\t\n\f\r ]`. -/
def isSpaceChar (c : Char) : Bool :=
  c = '\t' || c = '\n' || c = Char.ofNat 12 || c = '\r' || c = ' '

/-- RE2 `.`: any character other than newline. -/
def isDotChar (c : Char) : Bool :=
  c != '\n'

/-- Match `\[([A-Z0-9]+-[0-9]+)\]` at the head of the list; on success return
the contents of the capture group (the part between the brackets). -/
def matchToken : List Char → Option (List Char)
  | [] => none
  | c :: rest =>
    if c = '[' then
      let a := rest.takeWhile isUpperDigit
      if a = [] then none
      else
        match rest.dropWhile isUpperDigit with
        | c1 :: r2 =>
          if c1 = '-' then
            let d := r2.takeWhile isDigitChar
            if d = [] then none
            else
              match r2.dropWhile isDigitChar with
              | c2 :: _ => if c2 = ']' then some (a ++ '-' :: d) else none
              | [] => none
          else none
        | [] => none
    else none

def wsMax (l : List Char) : Nat := (l.takeWhile isSpaceChar).length

def dotMax (l : List Char) : Nat := (l.takeWhile isDotChar).length

/-- Try the greedy `\s*` with length `w`, then `w - 1`, ..., then `0`,
followed by the bracketed token. -/
def tryWs (l : List Char) : Nat → Option (List Char)
  | 0 => matchToken l
  | w + 1 =>
    match matchToken (l.drop (w + 1)) with
    | some g2 => some g2
    | none => tryWs l w

/-- Try the greedy `(.*)` with length `k`, then `k - 1`, ..., then `0`; for
each length, continue with `\s*` and the token.  On success return the two
capture groups. -/
def tryDot (s : List Char) : Nat → Option (List Char × List Char)
  | 0 =>
    match tryWs s (wsMax s) with
    | some g2 => some ([], g2)
    | none => none
  | k + 1 =>
    let rest := s.drop (k + 1)
    match tryWs rest (wsMax rest) with
    | some g2 => some (s.take (k + 1), g2)
    | none => tryDot s k

/-- Leftmost-first search of `FindStringSubmatch`: try each start position
from the left; at each, run the preference-ordered backtracking search. -/
def findFrom : List Char → Option (List Char × List Char)
  | [] => none
  | c :: rest =>
    match tryDot (c :: rest) (dotMax (c :: rest)) with
    | some r => some r
    | none => findFrom rest

def jiraLink (g2 : List Char) : String :=
  "[<https://jira.YOURDOMAIN.com/browse/" ++ String.mk g2 ++ "|" ++ String.mk g2 ++ ">]"

/-- Go `parseMRTitle`: on a match return `matches[1]` and the formatted JIRA
link built from `matches[2]`; otherwise the whole title and `""`. -/
def parseMRTitle (title : String) : String × String :=
  match findFrom title.data with
  | some (g1, g2) => (String.mk g1, jiraLink g2)
  | none => (title, "")

/-- Go `getJiraIssueID`: `matches[2]` on a match, `""` otherwise. -/
def getJiraIssueID (title : String) : String :=
  match findFrom title.data with
  | some (_, g2) => String.mk g2
  | none => ""

/-- Whether a bracketed token `\[[A-Z0-9]+-[0-9]+\]` occurs anywhere. -/
def containsToken : List Char → Bool
  | [] => false
  | c :: rest => (matchToken (c :: rest)).isSome || containsToken rest

end mrtitle

/-! ## Config-file sort-order linter

Lines are modelled as `List Char` (a `bufio.Scanner` line never contains a
newline).  `unicode.IsSpace` is modelled on its ASCII portion
`[\t\n\v\f\r ]`, which covers every character a claim mentions.  Go string
comparison `<` is byte-wise lexicographic, which on valid UTF-8 agrees with
code-point order, modelled by `goLess`. -/

namespace lint

def isGoSpace (c : Char) : Bool :=
  c = ' ' || c = '\t' || c = '\n' || c = Char.ofNat 11 || c = Char.ofNat 12 || c = '\r'

/-- Go `strings.TrimSpace`. -/
def trimSpace (l : List Char) : List Char :=
  ((l.dropWhile isGoSpace).reverse.dropWhile isGoSpace).reverse

/-- Go `tableRegexp.MatchString` for `^\[.*\]$`. -/
def tableMatch (l : List Char) : Bool :=
  match l with
  | '[' :: rest =>
    decide (rest ≠ []) && decide (rest.getLast? = some ']') &&
      rest.dropLast.all (fun c => c != '\n')
  | _ => false

/-- Go string `<` (lexicographic). -/
def goLess : List Char → List Char → Bool
  | [], [] => false
  | [], _ :: _ => true
  | _ :: _, [] => false
  | x :: xs, y :: ys => decide (x < y) || (x == y && goLess xs ys)

/-- `strings.Split(line, "=")[0]`. -/
def beforeEq (l : List Char) : List Char :=
  l.takeWhile (fun c => c != '=')

inductive LintOutcome where
  | ok (prevTable prevKey : List Char)
  | sortExit
  | panicked
deriving DecidableEq

/-- One iteration of the scanner loop of the linter `main`, on state
`(previousTable, previousKey)`.  A non-empty line whose `TrimSpace` is empty
indexes `""[0]`, a runtime panic. -/
def lintLine (prevTable prevKey line : List Char) : LintOutcome :=
  if line = [] then .ok prevTable prevKey
  else
    match trimSpace line with
    | [] => .panicked
    | c :: _ =>
      if c = '#' then .ok prevTable prevKey
      else if tableMatch line then
        let currTable := (line.drop 1).dropLast
        if goLess currTable prevTable then .sortExit
        else .ok currTable []
      else
        let currKey := trimSpace (beforeEq line)
        if goLess currKey prevKey then .sortExit
        else .ok prevTable currKey

def lintLines : List Char → List Char → List (List Char) → LintOutcome
  | prevTable, prevKey, [] => .ok prevTable prevKey
  | prevTable, prevKey, line :: rest =>
    match lintLine prevTable prevKey line with
    | .ok t k => lintLines t k rest
    | .sortExit => .sortExit
    | .panicked => .panicked

/-- The whole scan of the linter on the file's lines. -/
def lintRun (lines : List (List Char)) : LintOutcome :=
  lintLines [] [] lines

end lint

/-! ## Cleanup scripts

The two `main` programs are embedded as pure functions over an environment
record that supplies the response of every external HTTP call; mutations
are assumed not to change later responses (the scripts never re-read what
they mutate).  Each function returns the ordered list of external API
calls it performs (`Event`) together with its result; a `none` result
models `outputErrorAndExit` / an error return.  Timestamps are `Int`; the
`time.Now().AddDate(...)` cutoffs are fields of the environment.  The Go
`for` loop of the paginating fetchers takes a fuel parameter: with enough
fuel the embedding performs exactly the iterations of the source loop.
Slack message block construction is pure string formatting with no claim
about it; only the `PostMessage` call is modelled. -/

namespace cleanup

structure MergeRequest where
  iid : Int
  title : String
  authorUsername : String
  updatedAt : Int
  webURL : String
deriving DecidableEq

structure Branch where
  name : String
  isProtected : Bool
  committedDate : Int
deriving DecidableEq

/-- Response of one GitLab list call: payload and `resp.NextPage`
(`0` means last page), or a failure (client error or status `>= 400`). -/
inductive FetchResult (α : Type) where
  | ok (items : List α) (nextPage : Nat)
  | fail
deriving DecidableEq

/-- Response of `jiraClient.Issue.Get`: the issue's status name, a 404
(skipped by the scripts), or any other failure (aborts the script). -/
inductive JiraResult where
  | ok (statusName : String)
  | notFound
  | fail
deriving DecidableEq

structure Env where
  twoMonthsAgo : Int
  threeMonthsAgo : Int
  sixMonthsAgo : Int
  listBranches : Nat → FetchResult Branch
  listMergeRequests : Nat → FetchResult MergeRequest
  jiraGet : String → JiraResult
  slackUserByEmail : String → Option String
  deleteBranchOk : String → Bool
  updateMergeRequestOk : Int → Bool
  postMessageOk : Bool

/-- One external API call. -/
inductive Event where
  | listBranches (page : Nat)
  | listMergeRequests (page : Nat)
  | jiraGet (issueID : String)
  | slackGetUserByEmail (email : String)
  | deleteBranch (name : String)
  | updateMergeRequest (iid : Int)
  | inviteUsersToConversation (userIDs : List String)
  | postMessage
deriving DecidableEq

/-- The calls suppressed by dry run: GitLab mutations and Slack
notifications. -/
def Event.isMutating : Event → Bool
  | .deleteBranch _ => true
  | .updateMergeRequest _ => true
  | .inviteUsersToConversation _ => true
  | .postMessage => true
  | _ => false

/-- The pagination loop shared by `getBranches` and the second script's
`getMergeRequests`: request a page (the first request carries no page
number, modelled as page `0`), append the payload, follow `resp.NextPage`
until it is `0`, abort on a failed call. -/
def fetchPages {α : Type} (f : Nat → FetchResult α) (mkEvent : Nat → Event) :
    Nat → Nat → List Event × Option (List α)
  | 0, _ => ([], none)
  | fuel + 1, page =>
    match f page with
    | .fail => ([mkEvent page], none)
    | .ok items 0 => ([mkEvent page], some items)
    | .ok items (next + 1) =>
      let r := fetchPages f mkEvent fuel (next + 1)
      (mkEvent page :: r.1, r.2.map (fun tail => items ++ tail))

/-- The first script's `getMergeRequests`: a single list call, no
pagination loop (`PerPage` is 100; later pages are never requested). -/
def getMergeRequestsSingle (f : Nat → FetchResult MergeRequest) :
    List Event × Option (List MergeRequest) :=
  match f 0 with
  | .fail => ([Event.listMergeRequests 0], none)
  | .ok items _ => ([Event.listMergeRequests 0], some items)

/-- `filterStaleMergeRequests` / `getStaleMergeRequests`: keep merge requests
with `UpdatedAt.Before(twoMonthsAgo)`. -/
def filterStaleMergeRequests (env : Env) (mrs : List MergeRequest) : List MergeRequest :=
  mrs.filter (fun mr => decide (mr.updatedAt < env.twoMonthsAgo))

/-- `filterStaleNonProtectedBranches`: keep branches with
`!b.Protected && b.Commit.CommittedDate.Before(sixMonthsAgo)`. -/
def filterStaleNonProtectedBranches (env : Env) (branches : List Branch) : List Branch :=
  branches.filter (fun b => !b.isProtected && decide (b.committedDate < env.sixMonthsAgo))

/-- The deletion loop of `deleteStaleBranches`: delete each branch in order,
abort on the first failed call. -/
def deleteBranchesLoop (env : Env) : List Branch → List Event × Option Unit
  | [] => ([], some ())
  | b :: rest =>
    if env.deleteBranchOk b.name then
      let r := deleteBranchesLoop env rest
      (Event.deleteBranch b.name :: r.1, r.2)
    else ([Event.deleteBranch b.name], none)

/-- `deleteStaleBranches`: return immediately on dry run, otherwise run the
deletion loop. -/
def deleteStaleBranches (env : Env) (staleBranches : List Branch) (isDryRun : Bool) :
    List Event × Option Unit :=
  if isDryRun then ([], some ())
  else deleteBranchesLoop env staleBranches

/-- The classification loop of `closeExpiredMergeRequests`: a merge request
is collected as expired when it is older than `threeMonthsAgo`, or when its
title carries a JIRA issue ID whose issue's status name is `"Closed"`.  A
missing issue ID and a 404 lookup are skipped; any other JIRA failure
aborts. -/
def classifyExpiredLoop (env : Env) : List MergeRequest → List Event × Option (List MergeRequest)
  | [] => ([], some [])
  | mr :: rest =>
    if mr.updatedAt < env.threeMonthsAgo then
      let r := classifyExpiredLoop env rest
      (r.1, r.2.map (fun tail => mr :: tail))
    else
      let jiraIssueID := mrtitle.getJiraIssueID mr.title
      if jiraIssueID = "" then classifyExpiredLoop env rest
      else
        match env.jiraGet jiraIssueID with
        | .fail => ([Event.jiraGet jiraIssueID], none)
        | .notFound =>
          let r := classifyExpiredLoop env rest
          (Event.jiraGet jiraIssueID :: r.1, r.2)
        | .ok statusName =>
          let r := classifyExpiredLoop env rest
          if statusName = "Closed" then
            (Event.jiraGet jiraIssueID :: r.1, r.2.map (fun tail => mr :: tail))
          else (Event.jiraGet jiraIssueID :: r.1, r.2)

/-- The closing loop of `closeExpiredMergeRequests`: `UpdateMergeRequest`
with state event `close` for each expired merge request, abort on the first
failed call. -/
def updateMergeRequestsLoop (env : Env) : List MergeRequest → List Event × Option Unit
  | [] => ([], some ())
  | mr :: rest =>
    if env.updateMergeRequestOk mr.iid then
      let r := updateMergeRequestsLoop env rest
      (Event.updateMergeRequest mr.iid :: r.1, r.2)
    else ([Event.updateMergeRequest mr.iid], none)

/-- `closeExpiredMergeRequests`: classify, then (unless dry run) close each
expired merge request; on success return the expired list. -/
def closeExpiredMergeRequests (env : Env) (mrs : List MergeRequest) (isDryRun : Bool) :
    List Event × Option (List MergeRequest) :=
  let c := classifyExpiredLoop env mrs
  match c.2 with
  | none => (c.1, none)
  | some expiredMRs =>
    if isDryRun then (c.1, some expiredMRs)
    else
      let u := updateMergeRequestsLoop env expiredMRs
      (c.1 ++ u.1, u.2.map (fun _ => expiredMRs))

/-- One pass of the user-lookup loop of `getSlackUserIDsFromGitLabUserIDs`:
look up `username@YOURDOMAIN.com`; on error print and continue, otherwise
assign into the map keyed by the GitLab username. -/
def slackLookupLoop (env : Env) (acc : List (String × String)) :
    List MergeRequest → List Event × List (String × String)
  | [] => ([], acc)
  | mr :: rest =>
    let email := mr.authorUsername ++ "@YOURDOMAIN.com"
    match env.slackUserByEmail email with
    | none =>
      let r := slackLookupLoop env acc rest
      (Event.slackGetUserByEmail email :: r.1, r.2)
    | some userID =>
      let r := slackLookupLoop env (maps.mapAssign acc mr.authorUsername userID) rest
      (Event.slackGetUserByEmail email :: r.1, r.2)

/-- `getSlackUserIDsFromGitLabUserIDs`: the lookup loop over the stale merge
requests, then over the expired ones.  Lookup failures never abort. -/
def getSlackUserIDsFromGitLabUserIDs (env : Env) (staleMRs expiredMRs : List MergeRequest) :
    List Event × List (String × String) :=
  let r1 := slackLookupLoop env [] staleMRs
  let r2 := slackLookupLoop env r1.2 expiredMRs
  (r1.1 ++ r2.1, r2.2)

/-- `inviteUsersToSlackChannel`: collect the map's values and invite them,
unless dry run.  (Go iterates the map in unspecified order; the model fixes
the association-list order.)  An invite error is printed and ignored. -/
def inviteUsersToSlackChannel (_env : Env) (slackUserIDByGitLabUserID : List (String × String))
    (isDryRun : Bool) : List Event :=
  let slackUserIDs := slackUserIDByGitLabUserID.map Prod.snd
  if isDryRun then []
  else [Event.inviteUsersToConversation slackUserIDs]

/-- `buildAndPostSlackMessage`: build the message blocks (pure formatting,
not modelled), return before posting on dry run, otherwise `PostMessage`;
a posting error aborts. -/
def buildAndPostSlackMessage (env : Env) (isDryRun : Bool) : List Event × Option Unit :=
  if isDryRun then ([], some ())
  else if env.postMessageOk then ([Event.postMessage], some ())
  else ([Event.postMessage], none)

/-- The tail shared by both `main`s after the merge requests are fetched:
filter stale, classify and close expired, exit early when both lists are
empty, look up Slack users, invite them, post the summary. -/
def runMergeRequestStages (env : Env) (mrs : List MergeRequest) (isDryRun : Bool) :
    List Event × Option Unit :=
  let staleMRs := filterStaleMergeRequests env mrs
  let c := closeExpiredMergeRequests env mrs isDryRun
  match c.2 with
  | none => (c.1, none)
  | some expiredMRs =>
    if staleMRs.isEmpty && expiredMRs.isEmpty then (c.1, some ())
    else
      let s := getSlackUserIDsFromGitLabUserIDs env staleMRs expiredMRs
      let inv := inviteUsersToSlackChannel env s.2 isDryRun
      let p := buildAndPostSlackMessage env isDryRun
      (c.1 ++ s.1 ++ inv ++ p.1, p.2)

/-- `main` of the merge-request cleanup script (the first script): a single
merge-request list call, then the shared merge-request stages. -/
def runMergeRequestCleanup (env : Env) (isDryRun : Bool) : List Event × Option Unit :=
  let m := getMergeRequestsSingle env.listMergeRequests
  match m.2 with
  | none => (m.1, none)
  | some mrs =>
    let t := runMergeRequestStages env mrs isDryRun
    (m.1 ++ t.1, t.2)

/-- `main` of the branch cleanup script (the second script): fetch all
branches, delete the stale non-protected ones, then fetch all merge
requests and run the shared merge-request stages. -/
def runBranchCleanup (env : Env) (fuel : Nat) (isDryRun : Bool) : List Event × Option Unit :=
  let b := fetchPages env.listBranches Event.listBranches fuel 0
  match b.2 with
  | none => (b.1, none)
  | some branches =>
    let staleBranches := filterStaleNonProtectedBranches env branches
    let d := deleteStaleBranches env staleBranches isDryRun
    match d.2 with
    | none => (b.1 ++ d.1, none)
    | some _ =>
      let m := fetchPages env.listMergeRequests Event.listMergeRequests fuel 0
      match m.2 with
      | none => (b.1 ++ d.1 ++ m.1, none)
      | some mrs =>
        let t := runMergeRequestStages env mrs isDryRun
        (b.1 ++ d.1 ++ m.1 ++ t.1, t.2)

/-- The paginated environment of a well-behaved REST endpoint serving the
given pages: the unnumbered first request returns the first page, every
response points at the following page, the last response carries
`NextPage = 0`. -/
def pagesEnv {α : Type} (pages : List (List α)) : Nat → FetchResult α :=
  fun p =>
    let idx := if p = 0 then 0 else p - 1
    match pages.get? idx with
    | some items => .ok items (if idx + 1 < pages.length then idx + 2 else 0)
    | none => .ok [] 0

/-- Whether the merge request is classified expired, as a predicate: older
than the three-month cutoff, or carrying a JIRA issue reference whose issue
is `"Closed"`. -/
def isExpired (env : Env) (mr : MergeRequest) : Bool :=
  decide (mr.updatedAt < env.threeMonthsAgo) ||
    (!(mrtitle.getJiraIssueID mr.title = "") &&
      decide (env.jiraGet (mrtitle.getJiraIssueID mr.title) = JiraResult.ok "Closed"))

/-- The names passed to `DeleteBranch` in a trace. -/
def deleteEvents (trace : List Event) : List String :=
  trace.filterMap (fun e =>
    match e with
    | .deleteBranch name => some name
    | _ => none)

/-- The iids passed to `UpdateMergeRequest` in a trace. -/
def updateEvents (trace : List Event) : List Int :=
  trace.filterMap (fun e =>
    match e with
    | .updateMergeRequest iid => some iid
    | _ => none)

/-! Concrete data for witnesses and counterexamples. -/

def mr1 : MergeRequest := ⟨1, "Old MR [AB-1]", "bob", -50, "url1"⟩

def mr2 : MergeRequest := ⟨2, "Second", "alice", 5, "url2"⟩

def b1 : Branch := ⟨"protected-old", true, -100⟩

def b2 : Branch := ⟨"stale", false, -100⟩

def b3 : Branch := ⟨"fresh", false, 50⟩

/-- An environment in which every GitLab and Slack-posting call succeeds,
JIRA lookups return 404, and Slack user lookups fail. -/
def envA : Env :=
  ⟨0, -10, 0, fun _ => .ok [b1, b2, b3] 0, fun _ => .ok [mr1] 0, fun _ => .notFound,
    fun _ => none, fun _ => true, fun _ => true, true⟩

/-- Like `envA` but the branch listing call fails. -/
def envFail : Env :=
  ⟨0, -10, 0, fun _ => .fail, fun _ => .ok [mr1] 0, fun _ => .notFound,
    fun _ => none, fun _ => true, fun _ => true, true⟩

/-- A fresh merge request carrying a parsable issue reference. -/
def mr3 : MergeRequest := ⟨3, "Fresh [CD-2]", "carol", 5, "url3"⟩

/-- Like `envA` but the merge-request listing call fails. -/
def envFailMR : Env :=
  ⟨0, -10, 0, fun _ => .ok [b1, b2, b3] 0, fun _ => .fail, fun _ => .notFound,
    fun _ => none, fun _ => true, fun _ => true, true⟩

/-- Like `envA` but every branch deletion call fails. -/
def envFailDel : Env :=
  ⟨0, -10, 0, fun _ => .ok [b1, b2, b3] 0, fun _ => .ok [mr1] 0, fun _ => .notFound,
    fun _ => none, fun _ => false, fun _ => true, true⟩

/-- Like `envA` but every merge-request update call fails. -/
def envFailUpd : Env :=
  ⟨0, -10, 0, fun _ => .ok [b1, b2, b3] 0, fun _ => .ok [mr1] 0, fun _ => .notFound,
    fun _ => none, fun _ => true, fun _ => false, true⟩

/-- Like `envA` but every JIRA lookup hard-fails (a non-404 error). -/
def envFailJira : Env :=
  ⟨0, -10, 0, fun _ => .ok [b1, b2, b3] 0, fun _ => .ok [mr1] 0, fun _ => .fail,
    fun _ => none, fun _ => true, fun _ => true, true⟩

end cleanup

/-! ## Helper lemmas -/

namespace lint

theorem lintLines_append (a : List (List Char)) :
    ∀ (t k : List Char) (b : List (List Char)),
      lintLines t k (a ++ b) =
        match lintLines t k a with
        | .ok t2 k2 => lintLines t2 k2 b
        | .sortExit => .sortExit
        | .panicked => .panicked := by
  induction a with
  | nil => intro t k b; rfl
  | cons line rest ih =>
    intro t k b
    simp only [List.cons_append, lintLines]
    cases lintLine t k line with
    | ok t2 k2 => exact ih t2 k2 b
    | sortExit => rfl
    | panicked => rfl

theorem dropWhile_all {p : Char → Bool} (l : List Char) (h : l.all p = true) :
    l.dropWhile p = [] := by
  induction l with
  | nil => rfl
  | cons c rest ih =>
    simp only [List.all_cons, Bool.and_eq_true] at h
    simp [List.dropWhile, h.1, ih h.2]

theorem trimSpace_all_space (l : List Char) (h : l.all isGoSpace = true) :
    trimSpace l = [] := by
  rw [trimSpace, dropWhile_all l h]
  rfl

theorem lintLine_ws (t k ws : List Char) (hne : ws ≠ [])
    (hws : ws.all isGoSpace = true) : lintLine t k ws = .panicked := by
  rw [lintLine, if_neg hne, trimSpace_all_space ws hws]

end lint

namespace mrtitle

theorem all_takeWhile (p : Char → Bool) (l : List Char) :
    (l.takeWhile p).all p = true := by
  induction l with
  | nil => rfl
  | cons c rest ih =>
    by_cases hc : p c
    · simp [List.takeWhile, hc, ih]
    · simp [List.takeWhile, hc]

theorem all_take_of_le_takeWhile (p : Char → Bool) (l : List Char) (n : Nat)
    (h : n ≤ (l.takeWhile p).length) : (l.take n).all p = true := by
  induction l generalizing n with
  | nil => simp
  | cons c rest ih =>
    by_cases hc : p c
    · match n with
      | 0 => simp
      | m + 1 =>
        simp only [List.takeWhile, hc, List.length_cons] at h
        simp [List.take, hc, ih m (Nat.le_of_succ_le_succ h)]
    · simp only [List.takeWhile, hc] at h
      simp only [Bool.false_eq_true, if_false, List.length_nil, Nat.le_zero] at h
      subst h
      simp

theorem matchToken_decomp (t g2 : List Char) (h : matchToken t = some g2) :
    ∃ a d rest, t = '[' :: (a ++ '-' :: (d ++ ']' :: rest)) ∧ g2 = a ++ '-' :: d ∧
      a ≠ [] ∧ a.all isUpperDigit = true ∧ d ≠ [] ∧ d.all isDigitChar = true := by
  match t with
  | [] => exact absurd h (by simp [matchToken])
  | c :: rest0 =>
    rw [matchToken] at h
    by_cases hc : c = '['
    · rw [if_pos hc] at h
      subst hc
      dsimp only at h
      by_cases ha : rest0.takeWhile isUpperDigit = []
      · rw [if_pos ha] at h; exact absurd h (by simp)
      · rw [if_neg ha] at h
        split at h
        · rename_i c1 r2 hr1
          by_cases hc1 : c1 = '-'
          · rw [if_pos hc1] at h
            subst hc1
            by_cases hd : r2.takeWhile isDigitChar = []
            · rw [if_pos hd] at h; exact absurd h (by simp)
            · rw [if_neg hd] at h
              split at h
              · rename_i c2 r4 hr3
                by_cases hc2 : c2 = ']'
                · rw [if_pos hc2] at h
                  subst hc2
                  simp only [Option.some.injEq] at h
                  refine ⟨rest0.takeWhile isUpperDigit, r2.takeWhile isDigitChar, r4,
                    ?_, h.symm, ha, all_takeWhile _ _, hd, all_takeWhile _ _⟩
                  have e2 : r2.takeWhile isDigitChar ++ r2.dropWhile isDigitChar = r2 :=
                    List.takeWhile_append_dropWhile isDigitChar r2
                  rw [hr3] at e2
                  have e1 : rest0.takeWhile isUpperDigit ++ rest0.dropWhile isUpperDigit =
                      rest0 := List.takeWhile_append_dropWhile isUpperDigit rest0
                  rw [hr1, ← e2] at e1
                  exact congrArg (fun l => '[' :: l) e1.symm
                · rw [if_neg hc2] at h; exact absurd h (by simp)
              · exact absurd h (by simp)
          · rw [if_neg hc1] at h; exact absurd h (by simp)
        · exact absurd h (by simp)
    · rw [if_neg hc] at h; exact absurd h (by simp)

theorem tryWs_none (l : List Char) (w : Nat) (h : tryWs l w = none) :
    matchToken l = none := by
  induction w with
  | zero => exact h
  | succ w ih =>
    rw [tryWs] at h
    split at h
    · exact absurd h (by simp)
    · exact ih h

theorem tryDot_none (s : List Char) (k : Nat) (h : tryDot s k = none) :
    tryWs s (wsMax s) = none := by
  induction k with
  | zero =>
    rw [tryDot] at h
    split at h
    · exact absurd h (by simp)
    · assumption
  | succ k ih =>
    rw [tryDot] at h
    split at h
    · exact absurd h (by simp)
    · exact ih h

theorem findFrom_none (s : List Char) (h : findFrom s = none) :
    containsToken s = false := by
  induction s with
  | nil => rfl
  | cons c rest ih =>
    rw [findFrom] at h
    split at h
    · exact absurd h (by simp)
    · rename_i ht
      have h1 : matchToken (c :: rest) = none := tryWs_none _ _ (tryDot_none _ _ ht)
      rw [containsToken, h1, ih h]
      rfl

theorem tryWs_decomp (l : List Char) (w : Nat) (g2 : List Char)
    (h : tryWs l w = some g2) : ∃ w0, w0 ≤ w ∧ matchToken (l.drop w0) = some g2 := by
  induction w with
  | zero => exact ⟨0, Nat.le_refl 0, by rwa [List.drop_zero]⟩
  | succ w ih =>
    rw [tryWs] at h
    split at h
    · rename_i g hm
      simp only [Option.some.injEq] at h
      exact ⟨w + 1, Nat.le_refl _, h ▸ hm⟩
    · obtain ⟨w0, hw0, hm0⟩ := ih h
      exact ⟨w0, Nat.le_succ_of_le hw0, hm0⟩

theorem tryDot_decomp (s : List Char) (k : Nat) (g1 g2 : List Char)
    (h : tryDot s k = some (g1, g2)) :
    ∃ k0, k0 ≤ k ∧ g1 = s.take k0 ∧
      tryWs (s.drop k0) (wsMax (s.drop k0)) = some g2 := by
  induction k with
  | zero =>
    rw [tryDot] at h
    split at h
    · rename_i g hw
      simp only [Option.some.injEq, Prod.mk.injEq] at h
      obtain ⟨h1, h2⟩ := h
      subst h1
      subst h2
      exact ⟨0, Nat.le_refl 0, rfl, by rwa [List.drop_zero]⟩
    · exact absurd h (by simp)
  | succ k ih =>
    rw [tryDot] at h
    split at h
    · rename_i g hw
      simp only [Option.some.injEq, Prod.mk.injEq] at h
      obtain ⟨h1, h2⟩ := h
      subst h2
      exact ⟨k + 1, Nat.le_refl _, h1.symm, hw⟩
    · obtain ⟨k0, hk0, hg1, hws⟩ := ih h
      exact ⟨k0, Nat.le_succ_of_le hk0, hg1, hws⟩

theorem findFrom_decomp (s : List Char) (r : List Char × List Char)
    (h : findFrom s = some r) :
    ∃ pre suf, s = pre ++ suf ∧ tryDot suf (dotMax suf) = some r := by
  induction s with
  | nil => exact absurd h (by simp [findFrom])
  | cons c rest ih =>
    rw [findFrom] at h
    split at h
    · rename_i r2 ht
      simp only [Option.some.injEq] at h
      exact ⟨[], c :: rest, rfl, h ▸ ht⟩
    · obtain ⟨pre, suf, hs, hd⟩ := ih h
      exact ⟨c :: pre, suf, by rw [List.cons_append, ← hs], hd⟩

theorem containsToken_false_drop (s : List Char) (h : containsToken s = false) (n : Nat) :
    matchToken (s.drop n) = none := by
  induction s generalizing n with
  | nil => simp [matchToken]
  | cons c rest ih =>
    rw [containsToken, Bool.or_eq_false_iff] at h
    match n with
    | 0 =>
      rw [List.drop_zero]
      exact Option.not_isSome_iff_eq_none.mp (by rw [h.1]; exact Bool.false_ne_true)
    | m + 1 => exact ih h.2 m

theorem tryWs_none_of (l : List Char) (h : ∀ n, matchToken (l.drop n) = none) :
    ∀ w, tryWs l w = none := by
  intro w
  induction w with
  | zero =>
    rw [tryWs, ← List.drop_zero l]
    exact h 0
  | succ w ih =>
    rw [tryWs, h (w + 1)]
    exact ih

theorem tryDot_none_of (s : List Char)
    (h : ∀ k0, tryWs (s.drop k0) (wsMax (s.drop k0)) = none) :
    ∀ k, tryDot s k = none := by
  intro k
  induction k with
  | zero =>
    have h0 := h 0
    rw [List.drop_zero] at h0
    rw [tryDot, h0]
  | succ k ih =>
    rw [tryDot, h (k + 1)]
    exact ih

theorem containsToken_false_findFrom (s : List Char) (h : containsToken s = false) :
    findFrom s = none := by
  induction s with
  | nil => rfl
  | cons c rest ih =>
    have hdot : tryDot (c :: rest) (dotMax (c :: rest)) = none := by
      refine tryDot_none_of (c :: rest) (fun k0 => ?_) _
      refine tryWs_none_of ((c :: rest).drop k0) (fun n => ?_) _
      rw [List.drop_drop, Nat.add_comm]
      exact containsToken_false_drop (c :: rest) h (n + k0)
    rw [findFrom, hdot]
    rw [containsToken, Bool.or_eq_false_iff] at h
    exact ih h.2

/-- Full decomposition of a successful `findFrom`: the input splits into an
unmatched prefix, the first capture group (newline-free), a whitespace run,
and the bracketed token whose inside is the second capture group. -/
theorem findFrom_decomp_full (s g1 g2 : List Char)
    (h : findFrom s = some (g1, g2)) :
    ∃ pre ws tail a d,
      s = pre ++ g1 ++ ws ++ '[' :: (a ++ '-' :: (d ++ ']' :: tail)) ∧
        g2 = a ++ '-' :: d ∧ ws.all isSpaceChar = true ∧ g1.all isDotChar = true ∧
        a ≠ [] ∧ a.all isUpperDigit = true ∧ d ≠ [] ∧ d.all isDigitChar = true := by
  obtain ⟨pre, suf, hs, hd⟩ := findFrom_decomp s (g1, g2) h
  obtain ⟨k0, hk0, hg1, hws⟩ := tryDot_decomp suf (dotMax suf) g1 g2 hd
  obtain ⟨w0, hw0, hm⟩ := tryWs_decomp (suf.drop k0) (wsMax (suf.drop k0)) g2 hws
  obtain ⟨a, d, tail, hshape, hg2, ha, haall, hdne, hdall⟩ :=
    matchToken_decomp ((suf.drop k0).drop w0) g2 hm
  refine ⟨pre, (suf.drop k0).take w0, tail, a, d, ?_, hg2, ?_, ?_, ha, haall, hdne, hdall⟩
  · have hs2 : s = pre ++ (suf.take k0 ++ ((suf.drop k0).take w0 ++ (suf.drop k0).drop w0)) := by
      rw [List.take_append_drop, List.take_append_drop]
      exact hs
    rw [hs2, hshape, hg1]
    simp [List.append_assoc]
  · exact all_take_of_le_takeWhile isSpaceChar (suf.drop k0) w0 hw0
  · exact hg1 ▸ all_take_of_le_takeWhile isDotChar suf k0 hk0

end mrtitle

namespace maps

theorem lookup_mapAssign {K V : Type} [DecidableEq K] (m : List (K × V)) (k k2 : K) (v : V) :
    mapLookup (mapAssign m k v) k2 = if k = k2 then some v else mapLookup m k2 := by
  induction m with
  | nil => simp [mapAssign, mapLookup]
  | cons e rest ih =>
    obtain ⟨k1, v1⟩ := e
    by_cases h1 : k1 = k
    · subst h1
      by_cases h2 : k1 = k2 <;> simp [mapAssign, mapLookup, h2]
    · by_cases h2 : k1 = k2
      · subst h2
        have : k ≠ k1 := fun h => h1 h.symm
        simp [mapAssign, mapLookup, h1, this]
      · simp [mapAssign, mapLookup, h1, h2, ih]

theorem lookup_eq_none_of_not_mem {K V : Type} [DecidableEq K] (m : List (K × V)) (k : K)
    (h : k ∉ m.map Prod.fst) : mapLookup m k = none := by
  induction m with
  | nil => rfl
  | cons e rest ih =>
    obtain ⟨k1, v1⟩ := e
    simp only [List.map_cons, List.mem_cons] at h
    push_neg at h
    have hne : k1 ≠ k := fun hh => h.1 hh.symm
    simp [mapLookup, hne, ih h.2]

theorem lookup_foldl_mapAssign {K V : Type} [DecidableEq K] (m : List (K × V))
    (hnd : (m.map Prod.fst).Nodup) (init : List (K × V)) (k : K) :
    mapLookup (m.foldl (fun acc e => mapAssign acc e.1 e.2) init) k =
      ((mapLookup m k).rec (mapLookup init k) (fun v => some v) : Option V) := by
  induction m generalizing init with
  | nil => simp [mapLookup]
  | cons e rest ih =>
    obtain ⟨k1, v1⟩ := e
    simp only [List.map_cons, List.nodup_cons] at hnd
    have ih2 := ih hnd.2 (mapAssign init k1 v1)
    simp only [List.foldl_cons] at *
    by_cases h1 : k1 = k
    · subst h1
      have hr : mapLookup rest k1 = none := lookup_eq_none_of_not_mem rest k1 hnd.1
      rw [ih2, hr]
      simp [mapLookup, lookup_mapAssign]
    · rw [ih2, lookup_mapAssign]
      simp [mapLookup, h1]

end maps

namespace slices

theorem foldl_choice_mem {T : Type} (p : T → T → Bool) (l : List T) (a : T) :
    List.foldl (fun result item => if p item result then item else result) a l = a ∨
      List.foldl (fun result item => if p item result then item else result) a l ∈ l := by
  induction l generalizing a with
  | nil => simp
  | cons b rest ih =>
    simp only [List.foldl_cons]
    rcases ih (if p b a then b else a) with h | h
    · rw [h]
      by_cases hb : p b a
      · right
        simp [hb]
      · left
        simp [hb]
    · right
      exact List.mem_cons_of_mem _ h

theorem le_foldl_max {T : Type} [LinearOrder T] (l : List T) (a : T) :
    a ≤ List.foldl (fun result item => if maths.GreaterThan item result then item else result) a l ∧
      ∀ x ∈ l,
        x ≤ List.foldl (fun result item => if maths.GreaterThan item result then item else result) a l := by
  induction l generalizing a with
  | nil => simp
  | cons b rest ih =>
    simp only [List.foldl_cons]
    have step : a ≤ (if maths.GreaterThan b a then b else a) ∧
        b ≤ (if maths.GreaterThan b a then b else a) := by
      by_cases hb : b > a
      · simp [maths.GreaterThan, hb, le_of_lt hb]
      · simp [maths.GreaterThan, hb, le_of_not_lt hb]
    obtain ⟨ih1, ih2⟩ := ih (if maths.GreaterThan b a then b else a)
    refine ⟨le_trans step.1 ih1, ?_⟩
    intro x hx
    rcases List.mem_cons.mp hx with h | h
    · subst h
      exact le_trans step.2 ih1
    · exact ih2 x h

theorem foldl_min_le {T : Type} [LinearOrder T] (l : List T) (a : T) :
    List.foldl (fun result item => if maths.LessThan item result then item else result) a l ≤ a ∧
      ∀ x ∈ l,
        List.foldl (fun result item => if maths.LessThan item result then item else result) a l ≤ x := by
  induction l generalizing a with
  | nil => simp
  | cons b rest ih =>
    simp only [List.foldl_cons]
    have step : (if maths.LessThan b a then b else a) ≤ a ∧
        (if maths.LessThan b a then b else a) ≤ b := by
      by_cases hb : b < a
      · simp [maths.LessThan, hb, le_of_lt hb]
      · simp [maths.LessThan, hb, le_of_not_lt hb]
    obtain ⟨ih1, ih2⟩ := ih (if maths.LessThan b a then b else a)
    refine ⟨le_trans ih1 step.1, ?_⟩
    intro x hx
    rcases List.mem_cons.mp hx with h | h
    · subst h
      exact le_trans ih1 step.2
    · exact ih2 x h

end slices

namespace cleanup

theorem filter_keep (l : List Event) (h : ∀ e ∈ l, e.isMutating = false) :
    l.filter (fun e => !e.isMutating) = l := by
  induction l with
  | nil => rfl
  | cons e rest ih =>
    have he := h e (List.mem_cons_self e rest)
    simp only [List.filter_cons, he, Bool.not_false, if_true]
    rw [ih (fun x hx => h x (List.mem_cons_of_mem e hx))]

theorem filter_drop (l : List Event) (h : ∀ e ∈ l, e.isMutating = true) :
    l.filter (fun e => !e.isMutating) = [] := by
  induction l with
  | nil => rfl
  | cons e rest ih =>
    have he := h e (List.mem_cons_self e rest)
    simp only [List.filter_cons, he, Bool.not_true, if_false]
    exact ih (fun x hx => h x (List.mem_cons_of_mem e hx))

theorem fetchPages_shape {α : Type} (f : Nat → FetchResult α) (mk : Nat → Event) :
    ∀ fuel page, ∀ e ∈ (fetchPages f mk fuel page).1, ∃ p, e = mk p := by
  intro fuel
  induction fuel with
  | zero => intro page e he; exact absurd he (by simp [fetchPages])
  | succ fuel ih =>
    intro page e he
    rw [fetchPages] at he
    rcases hf : f page with ⟨items, next⟩ | _ <;> rw [hf] at he
    · match next, he with
      | 0, he => exact ⟨page, by simpa using he⟩
      | next + 1, he =>
        rcases List.mem_cons.mp he with h | h
        · exact ⟨page, h⟩
        · exact ih (next + 1) e h
    · exact ⟨page, by simpa using he⟩

theorem deleteLoop_ok (env : Env) (hDel : ∀ nm, env.deleteBranchOk nm = true) :
    ∀ l : List Branch,
      deleteBranchesLoop env l = (l.map (fun b => Event.deleteBranch b.name), some ()) := by
  intro l
  induction l with
  | nil => rfl
  | cons b rest ih =>
    rw [deleteBranchesLoop, if_pos (hDel b.name), ih]
    rfl

theorem deleteLoop_shape (env : Env) :
    ∀ l : List Branch, ∀ e ∈ (deleteBranchesLoop env l).1,
      ∃ b, b ∈ l ∧ e = Event.deleteBranch b.name := by
  intro l
  induction l with
  | nil => intro e he; exact absurd he (by simp [deleteBranchesLoop])
  | cons b rest ih =>
    intro e he
    rw [deleteBranchesLoop] at he
    by_cases hd : env.deleteBranchOk b.name
    · rw [if_pos hd] at he
      rcases List.mem_cons.mp he with h | h
      · exact ⟨b, List.mem_cons_self b rest, h⟩
      · obtain ⟨b2, hb2, he2⟩ := ih e h
        exact ⟨b2, List.mem_cons_of_mem b hb2, he2⟩
    · rw [if_neg hd] at he
      exact ⟨b, List.mem_cons_self b rest, by simpa using he⟩

theorem updateLoop_ok (env : Env) (hUpd : ∀ iid, env.updateMergeRequestOk iid = true) :
    ∀ l : List MergeRequest,
      updateMergeRequestsLoop env l =
        (l.map (fun mr => Event.updateMergeRequest mr.iid), some ()) := by
  intro l
  induction l with
  | nil => rfl
  | cons mr rest ih =>
    rw [updateMergeRequestsLoop, if_pos (hUpd mr.iid), ih]
    rfl

theorem updateLoop_shape (env : Env) :
    ∀ l : List MergeRequest, ∀ e ∈ (updateMergeRequestsLoop env l).1,
      ∃ iid, e = Event.updateMergeRequest iid := by
  intro l
  induction l with
  | nil => intro e he; exact absurd he (by simp [updateMergeRequestsLoop])
  | cons mr rest ih =>
    intro e he
    rw [updateMergeRequestsLoop] at he
    by_cases hu : env.updateMergeRequestOk mr.iid
    · rw [if_pos hu] at he
      rcases List.mem_cons.mp he with h | h
      · exact ⟨mr.iid, h⟩
      · exact ih e h
    · rw [if_neg hu] at he
      exact ⟨mr.iid, by simpa using he⟩

theorem classify_shape (env : Env) :
    ∀ mrs : List MergeRequest, ∀ e ∈ (classifyExpiredLoop env mrs).1,
      ∃ issueID, e = Event.jiraGet issueID := by
  intro mrs
  induction mrs with
  | nil => intro e he; exact absurd he (by simp [classifyExpiredLoop])
  | cons mr rest ih =>
    intro e he
    rw [classifyExpiredLoop] at he
    by_cases h3 : mr.updatedAt < env.threeMonthsAgo
    · rw [if_pos h3] at he
      exact ih e he
    · rw [if_neg h3] at he
      by_cases hid : mrtitle.getJiraIssueID mr.title = ""
      · rw [if_pos hid] at he
        exact ih e he
      · rw [if_neg hid] at he
        split at he
        · exact ⟨mrtitle.getJiraIssueID mr.title, by simpa using he⟩
        · rcases List.mem_cons.mp he with h | h
          · exact ⟨mrtitle.getJiraIssueID mr.title, h⟩
          · exact ih e h
        · split at he <;>
          · rcases List.mem_cons.mp he with h | h
            · exact ⟨mrtitle.getJiraIssueID mr.title, h⟩
            · exact ih e h

theorem slackLoop_shape (env : Env) :
    ∀ (mrs : List MergeRequest) (acc : List (String × String)),
      ∀ e ∈ (slackLookupLoop env acc mrs).1, ∃ email, e = Event.slackGetUserByEmail email := by
  intro mrs
  induction mrs with
  | nil => intro acc e he; exact absurd he (by simp [slackLookupLoop])
  | cons mr rest ih =>
    intro acc e he
    rw [slackLookupLoop] at he
    rcases hs : env.slackUserByEmail (mr.authorUsername ++ "@YOURDOMAIN.com") with _ | userID <;>
      rw [hs] at he
    · rcases List.mem_cons.mp he with h | h
      · exact ⟨mr.authorUsername ++ "@YOURDOMAIN.com", h⟩
      · exact ih acc e h
    · rcases List.mem_cons.mp he with h | h
      · exact ⟨mr.authorUsername ++ "@YOURDOMAIN.com", h⟩
      · exact ih (maps.mapAssign acc mr.authorUsername userID) e h

theorem slackUsers_shape (env : Env) (staleMRs expiredMRs : List MergeRequest) :
    ∀ e ∈ (getSlackUserIDsFromGitLabUserIDs env staleMRs expiredMRs).1,
      ∃ email, e = Event.slackGetUserByEmail email := by
  intro e he
  rw [getSlackUserIDsFromGitLabUserIDs] at he
  rcases List.mem_append.mp he with h | h
  · exact slackLoop_shape env staleMRs [] e h
  · exact slackLoop_shape env expiredMRs (slackLookupLoop env [] staleMRs).2 e h

theorem closeExpired_dry (env : Env) (mrs : List MergeRequest) :
    closeExpiredMergeRequests env mrs true =
      ((classifyExpiredLoop env mrs).1, (classifyExpiredLoop env mrs).2) := by
  rw [closeExpiredMergeRequests]
  rcases hc : (classifyExpiredLoop env mrs).2 with _ | expired
  · rfl
  · rfl

theorem closeExpired_false_ok (env : Env) (mrs expired : List MergeRequest)
    (hUpd : ∀ iid, env.updateMergeRequestOk iid = true)
    (hc : (classifyExpiredLoop env mrs).2 = some expired) :
    closeExpiredMergeRequests env mrs false =
      ((classifyExpiredLoop env mrs).1 ++
        expired.map (fun mr => Event.updateMergeRequest mr.iid), some expired) := by
  rw [closeExpiredMergeRequests, hc]
  simp [updateLoop_ok env hUpd expired]

theorem closeExpired_none (env : Env) (mrs : List MergeRequest) (isDryRun : Bool)
    (hc : (classifyExpiredLoop env mrs).2 = none) :
    closeExpiredMergeRequests env mrs isDryRun = ((classifyExpiredLoop env mrs).1, none) := by
  rw [closeExpiredMergeRequests, hc]

theorem classify_spec (env : Env) :
    ∀ mrs : List MergeRequest,
      (∀ mr ∈ mrs, ¬(mr.updatedAt < env.threeMonthsAgo) →
        mrtitle.getJiraIssueID mr.title ≠ "" →
        env.jiraGet (mrtitle.getJiraIssueID mr.title) ≠ JiraResult.fail) →
      (classifyExpiredLoop env mrs).2 = some (mrs.filter (isExpired env)) := by
  intro mrs
  induction mrs with
  | nil => intro _; rfl
  | cons mr rest ih =>
    intro hJ
    have ihr := ih (fun mr2 h => hJ mr2 (List.mem_cons_of_mem mr h))
    rw [classifyExpiredLoop]
    by_cases h3 : mr.updatedAt < env.threeMonthsAgo
    · rw [if_pos h3]
      have hpred : isExpired env mr = true := by
        rw [isExpired]
        simp [h3]
      show (classifyExpiredLoop env rest).2.map (fun tail => mr :: tail) =
        some ((mr :: rest).filter (isExpired env))
      rw [ihr]
      simp [List.filter_cons, hpred]
    · rw [if_neg h3]
      by_cases hid : mrtitle.getJiraIssueID mr.title = ""
      · rw [if_pos hid]
        have hpred : isExpired env mr = false := by
          rw [isExpired]
          simp [h3, hid]
        show (classifyExpiredLoop env rest).2 = some ((mr :: rest).filter (isExpired env))
        rw [ihr]
        simp [List.filter_cons, hpred]
      · rw [if_neg hid]
        split
        · rename_i hj
          exact absurd hj (hJ mr (List.mem_cons_self mr rest) h3 hid)
        · rename_i hj
          have hpred : isExpired env mr = false := by
            rw [isExpired]
            simp [h3, hid, hj]
          show (classifyExpiredLoop env rest).2 = some ((mr :: rest).filter (isExpired env))
          rw [ihr]
          simp [List.filter_cons, hpred]
        · rename_i s hj
          by_cases hs : s = "Closed"
          · subst hs
            rw [if_pos rfl]
            have hpred : isExpired env mr = true := by
              rw [isExpired]
              simp [hj, hid]
            show (classifyExpiredLoop env rest).2.map (fun tail => mr :: tail) =
              some ((mr :: rest).filter (isExpired env))
            rw [ihr]
            simp [List.filter_cons, hpred]
          · rw [if_neg hs]
            have hpred : isExpired env mr = false := by
              rw [isExpired]
              simp [h3, hid, hj, hs]
            show (classifyExpiredLoop env rest).2 = some ((mr :: rest).filter (isExpired env))
            rw [ihr]
            simp [List.filter_cons, hpred]

theorem classify_expired_mem (env : Env) :
    ∀ (mrs expired : List MergeRequest), (classifyExpiredLoop env mrs).2 = some expired →
      ∀ mr ∈ mrs, mr.updatedAt < env.threeMonthsAgo → mr ∈ expired := by
  intro mrs
  induction mrs with
  | nil =>
    intro expired _ mr hmr
    exact absurd hmr (List.not_mem_nil mr)
  | cons mr0 rest ih =>
    intro expired hc mr hmr h3
    rw [classifyExpiredLoop] at hc
    rcases List.mem_cons.mp hmr with hm | hm
    · subst hm
      rw [if_pos h3] at hc
      dsimp only at hc
      rw [Option.map_eq_some'] at hc
      obtain ⟨tail, _, hmap⟩ := hc
      rw [← hmap]
      exact List.mem_cons_self mr tail
    · by_cases h30 : mr0.updatedAt < env.threeMonthsAgo
      · rw [if_pos h30] at hc
        dsimp only at hc
        rw [Option.map_eq_some'] at hc
        obtain ⟨tail, htail, hmap⟩ := hc
        rw [← hmap]
        exact List.mem_cons_of_mem mr0 (ih tail htail mr hm h3)
      · rw [if_neg h30] at hc
        by_cases hid : mrtitle.getJiraIssueID mr0.title = ""
        · rw [if_pos hid] at hc
          exact ih expired hc mr hm h3
        · rw [if_neg hid] at hc
          split at hc
          · exact absurd hc (by simp)
          · exact ih expired (by exact hc) mr hm h3
          · split at hc
            · dsimp only at hc
              rw [Option.map_eq_some'] at hc
              obtain ⟨tail, htail, hmap⟩ := hc
              rw [← hmap]
              exact List.mem_cons_of_mem mr0 (ih tail htail mr hm h3)
            · exact ih expired (by exact hc) mr hm h3

theorem closeExpired_some_inv (env : Env) (mrs expired : List MergeRequest) (isDryRun : Bool)
    (h : (closeExpiredMergeRequests env mrs isDryRun).2 = some expired) :
    (classifyExpiredLoop env mrs).2 = some expired := by
  rcases hc : (classifyExpiredLoop env mrs).2 with _ | exp2
  · rw [closeExpired_none env mrs isDryRun hc] at h
    exact absurd h (by simp)
  · rw [closeExpiredMergeRequests, hc] at h
    cases isDryRun with
    | true => exact h
    | false =>
      replace h : Option.map (fun _ => exp2) (updateMergeRequestsLoop env exp2).2 =
          some expired := h
      rw [Option.map_eq_some'] at h
      obtain ⟨a, _, h2⟩ := h
      rw [h2]

theorem updateEvents_append (a b : List Event) :
    updateEvents (a ++ b) = updateEvents a ++ updateEvents b := by
  rw [updateEvents, updateEvents, updateEvents, List.filterMap_append]

theorem updateEvents_eq_nil (l : List Event)
    (h : ∀ e ∈ l, ∀ iid, e ≠ Event.updateMergeRequest iid) : updateEvents l = [] := by
  rw [updateEvents, List.filterMap_eq_nil_iff]
  intro e he
  cases e <;> first | rfl | exact absurd rfl (h _ he _)

theorem updateEvents_updates (l : List MergeRequest) :
    updateEvents (l.map (fun mr => Event.updateMergeRequest mr.iid)) =
      l.map MergeRequest.iid := by
  induction l with
  | nil => rfl
  | cons mr rest ih =>
    rw [updateEvents] at ih ⊢
    simp only [List.map_cons, List.filterMap_cons]
    rw [ih]

theorem deleteEvents_append (a b : List Event) :
    deleteEvents (a ++ b) = deleteEvents a ++ deleteEvents b := by
  rw [deleteEvents, deleteEvents, deleteEvents, List.filterMap_append]

theorem deleteEvents_eq_nil (l : List Event)
    (h : ∀ e ∈ l, ∀ nm, e ≠ Event.deleteBranch nm) : deleteEvents l = [] := by
  rw [deleteEvents, List.filterMap_eq_nil_iff]
  intro e he
  cases e <;> first | rfl | exact absurd rfl (h _ he _)

theorem deleteEvents_deletes (l : List Branch) :
    deleteEvents (l.map (fun b => Event.deleteBranch b.name)) = l.map Branch.name := by
  induction l with
  | nil => rfl
  | cons b rest ih =>
    rw [deleteEvents] at ih ⊢
    simp only [List.map_cons, List.filterMap_cons]
    rw [ih]

end cleanup

/-! ## Claim theorems -/

/-- C8: `maps.Merge m1 m2` has as key set the union of the key sets of `m1`
and `m2`, and maps each key to its `m1` value when the key is in `m1`, and to
its `m2` value otherwise: values from the first map win on conflict. -/
theorem maps_Merge_spec {K V : Type} [DecidableEq K] (m1 m2 : List (K × V)) (k : K)
    (h1 : (m1.map Prod.fst).Nodup) (h2 : (m2.map Prod.fst).Nodup) :
    (maps.mapLookup (maps.Merge m1 m2) k =
        match maps.mapLookup m1 k with
        | some v => some v
        | none => maps.mapLookup m2 k) ∧
      ((maps.mapLookup (maps.Merge m1 m2) k).isSome ↔
        (maps.mapLookup m1 k).isSome ∨ (maps.mapLookup m2 k).isSome) := by
  have inner := maps.lookup_foldl_mapAssign m2 h2 [] k
  have outer := maps.lookup_foldl_mapAssign m1 h1
    (m2.foldl (fun acc e => maps.mapAssign acc e.1 e.2) []) k
  rw [inner] at outer
  constructor
  · rw [maps.Merge, outer]
    cases maps.mapLookup m1 k <;> cases maps.mapLookup m2 k <;> simp [maps.mapLookup]
  · rw [maps.Merge, outer]
    cases maps.mapLookup m1 k <;> cases maps.mapLookup m2 k <;> simp [maps.mapLookup]

/-- Witness for C8 at concrete maps: `m1 = [(1, 10)]`, `m2 = [(1, 20), (2, 30)]`. -/
theorem maps_Merge_spec_witness :
    maps.mapLookup (maps.Merge [(1, 10)] [(1, 20), (2, 30)]) 1 =
        match maps.mapLookup [((1 : Nat), (10 : Nat))] 1 with
        | some v => some v
        | none => maps.mapLookup [(1, 20), (2, 30)] 1 :=
  (maps_Merge_spec [(1, 10)] [(1, 20), (2, 30)] 1 (by decide) (by decide)).1

/-- C9: on the empty slice `slices.Max` and `slices.Min` return the zero value
of the element type (0 for integers, the empty string for strings); on a
non-empty slice they return an element of the slice that is maximal
(respectively minimal). -/
theorem slices_Max_Min_spec :
    (slices.Max ([] : List Int) = 0 ∧ slices.Min ([] : List Int) = 0 ∧
        slices.Max ([] : List String) = "" ∧ slices.Min ([] : List String) = "") ∧
      ∀ (T : Type) [LinearOrder T] [GoZero T] (l : List T), l ≠ [] →
        slices.Max l ∈ l ∧ slices.Min l ∈ l ∧
          ∀ x ∈ l, slices.Min l ≤ x ∧ x ≤ slices.Max l := by
  refine ⟨⟨rfl, rfl, rfl, rfl⟩, ?_⟩
  intro T _ _ l hl
  match l with
  | [] => exact absurd rfl hl
  | x :: rest =>
    have hmaxmem : slices.Max (x :: rest) ∈ x :: rest := by
      rcases slices.foldl_choice_mem maths.GreaterThan (x :: rest) x with h | h
      · rw [slices.Max, slices.extremum, h]; exact List.mem_cons_self x rest
      · rw [slices.Max, slices.extremum]; exact h
    have hminmem : slices.Min (x :: rest) ∈ x :: rest := by
      rcases slices.foldl_choice_mem maths.LessThan (x :: rest) x with h | h
      · rw [slices.Min, slices.extremum, h]; exact List.mem_cons_self x rest
      · rw [slices.Min, slices.extremum]; exact h
    refine ⟨hmaxmem, hminmem, ?_⟩
    intro y hy
    constructor
    · have := (slices.foldl_min_le (x :: rest) x).2 y hy
      rw [slices.Min, slices.extremum]
      exact this
    · have := (slices.le_foldl_max (x :: rest) x).2 y hy
      rw [slices.Max, slices.extremum]
      exact this

/-- Witness for C9 at the concrete slice `[3, 1, 2] : List Int`. -/
theorem slices_Max_Min_spec_witness :
    slices.Max ([3, 1, 2] : List Int) ∈ ([3, 1, 2] : List Int) ∧
      slices.Min ([3, 1, 2] : List Int) ∈ ([3, 1, 2] : List Int) ∧
      ∀ x ∈ ([3, 1, 2] : List Int),
        slices.Min ([3, 1, 2] : List Int) ≤ x ∧ x ≤ slices.Max ([3, 1, 2] : List Int) :=
  slices_Max_Min_spec.2 Int [3, 1, 2] (by decide)

/-- C10 counterexample: the file `["[b]", "[a]", " "]` contains a non-empty
line consisting only of whitespace, yet the linter exits with a sort-order
report at the second line and never panics. -/
theorem lint_whitespace_counterexample :
    (" ".data ∈ ["[b]".data, "[a]".data, " ".data] ∧ " ".data ≠ [] ∧
        (" ".data).all lint.isGoSpace = true) ∧
      lint.lintRun ["[b]".data, "[a]".data, " ".data] = lint.LintOutcome.sortExit ∧
      lint.lintRun ["[b]".data, "[a]".data, " ".data] ≠ lint.LintOutcome.panicked := by
  decide

/-- C10 amended: for every input file containing a non-empty line consisting
only of whitespace characters, if the lines before the first such line scan
without exiting, the linter panics (index out of range on the first byte of
the trimmed line) instead of skipping the line or reporting a sort-order
result. -/
theorem lint_whitespace_line_panics (pre : List (List Char)) (ws : List Char)
    (rest : List (List Char)) (t k : List Char)
    (hpre : lint.lintLines [] [] pre = lint.LintOutcome.ok t k)
    (hne : ws ≠ []) (hws : ws.all lint.isGoSpace = true) :
    lint.lintRun (pre ++ ws :: rest) = lint.LintOutcome.panicked := by
  rw [lint.lintRun, lint.lintLines_append, hpre]
  show lint.lintLines t k (ws :: rest) = lint.LintOutcome.panicked
  simp only [lint.lintLines, lint.lintLine_ws t k ws hne hws]

/-- Witness for C10 amended: the file `["[a]", " "]` panics. -/
theorem lint_whitespace_line_panics_witness :
    lint.lintRun ["[a]".data, " ".data] = lint.LintOutcome.panicked :=
  lint_whitespace_line_panics ["[a]".data] " ".data [] "a".data []
    (by decide) (by decide) (by decide)

/-- C3 counterexample: in `"Fix bug [ABC-123] wip"` the bracketed token is not
at the end of the title, yet `getJiraIssueID` extracts `"ABC-123"` and
`parseMRTitle` truncates the title; and in `"Fix it [AB-1]"` the display
title `"Fix it "` keeps its trailing whitespace (it is not trimmed). -/
theorem parseMRTitle_counterexample :
    mrtitle.getJiraIssueID "Fix bug [ABC-123] wip" = "ABC-123" ∧
      mrtitle.parseMRTitle "Fix bug [ABC-123] wip" =
        ("Fix bug ", "[<https://jira.YOURDOMAIN.com/browse/ABC-123|ABC-123>]") ∧
      mrtitle.parseMRTitle "Fix bug [ABC-123] wip" ≠ ("Fix bug [ABC-123] wip", "") ∧
      mrtitle.parseMRTitle "Fix it [AB-1]" =
        ("Fix it ", "[<https://jira.YOURDOMAIN.com/browse/AB-1|AB-1>]") := by
  decide

/-- C3 amended: the title-parsing regular expression is not anchored to the
end of the title and performs no trimming.  If the title contains no
bracketed token `[UPPERCASE_ALNUM-DIGITS]` at all, `parseMRTitle` returns
the whole title unchanged and an empty issue reference.  If it contains one,
the leftmost-first match splits the title into an unmatched prefix, the
display title `g1` (which may keep trailing whitespace), an optional
whitespace run, and the bracketed token whose inside is extracted as the
issue reference; arbitrary text may follow the token. -/
theorem parseMRTitle_amended (title : String) :
    (mrtitle.containsToken title.data = false →
      mrtitle.parseMRTitle title = (title, "") ∧ mrtitle.getJiraIssueID title = "") ∧
      (mrtitle.containsToken title.data = true →
        ∃ g1 g2, mrtitle.parseMRTitle title = (String.mk g1, mrtitle.jiraLink g2) ∧
          mrtitle.getJiraIssueID title = String.mk g2 ∧
          ∃ pre ws tail a d,
            title.data = pre ++ g1 ++ ws ++ '[' :: (a ++ '-' :: (d ++ ']' :: tail)) ∧
              g2 = a ++ '-' :: d ∧ ws.all mrtitle.isSpaceChar = true ∧
              g1.all mrtitle.isDotChar = true ∧ a ≠ [] ∧
              a.all mrtitle.isUpperDigit = true ∧ d ≠ [] ∧
              d.all mrtitle.isDigitChar = true) := by
  rcases hf : mrtitle.findFrom title.data with _ | ⟨g1, g2⟩
  · constructor
    · intro _
      rw [mrtitle.parseMRTitle, mrtitle.getJiraIssueID, hf]
      exact ⟨rfl, rfl⟩
    · intro hc
      rw [mrtitle.findFrom_none _ hf] at hc
      exact absurd hc Bool.false_ne_true
  · constructor
    · intro hc
      rw [mrtitle.containsToken_false_findFrom _ hc] at hf
      exact absurd hf (by simp)
    · intro _
      refine ⟨g1, g2, ?_, ?_, mrtitle.findFrom_decomp_full _ _ _ hf⟩
      · rw [mrtitle.parseMRTitle, hf]
      · rw [mrtitle.getJiraIssueID, hf]

/-- Witness for C3 amended at `"Hello world"` (no token: identity) and
`"Fix [AB-1]"` (token present: decomposition holds). -/
theorem parseMRTitle_amended_witness :
    (mrtitle.parseMRTitle "Hello world" = ("Hello world", "") ∧
        mrtitle.getJiraIssueID "Hello world" = "") ∧
      ∃ g1 g2, mrtitle.parseMRTitle "Fix [AB-1]" = (String.mk g1, mrtitle.jiraLink g2) ∧
        mrtitle.getJiraIssueID "Fix [AB-1]" = String.mk g2 ∧
        ∃ pre ws tail a d,
          "Fix [AB-1]".data = pre ++ g1 ++ ws ++ '[' :: (a ++ '-' :: (d ++ ']' :: tail)) ∧
            g2 = a ++ '-' :: d ∧ ws.all mrtitle.isSpaceChar = true ∧
            g1.all mrtitle.isDotChar = true ∧ a ≠ [] ∧
            a.all mrtitle.isUpperDigit = true ∧ d ≠ [] ∧
            d.all mrtitle.isDigitChar = true :=
  ⟨(parseMRTitle_amended "Hello world").1 (by decide),
    (parseMRTitle_amended "Fix [AB-1]").2 (by decide)⟩

/-- C2: when every required JIRA lookup succeeds (with a status or a 404) and
the closing calls succeed, `closeExpiredMergeRequests` classifies a merge
request as expired exactly when its last-update timestamp is older than the
three-month cutoff, or its title carries a parsable issue reference whose
JIRA issue has status name `"Closed"`; and (outside dry run) it issues
`UpdateMergeRequest` exactly for the expired merge requests, so no other
merge request is closed. -/
theorem closeExpiredMergeRequests_spec (env : cleanup.Env)
    (mrs : List cleanup.MergeRequest) (isDryRun : Bool)
    (hJ : ∀ mr ∈ mrs, ¬(mr.updatedAt < env.threeMonthsAgo) →
      mrtitle.getJiraIssueID mr.title ≠ "" →
      env.jiraGet (mrtitle.getJiraIssueID mr.title) ≠ cleanup.JiraResult.fail)
    (hUpd : ∀ iid, env.updateMergeRequestOk iid = true) :
    (cleanup.closeExpiredMergeRequests env mrs isDryRun).2 =
        some (mrs.filter (cleanup.isExpired env)) ∧
      cleanup.updateEvents (cleanup.closeExpiredMergeRequests env mrs isDryRun).1 =
        if isDryRun then []
        else (mrs.filter (cleanup.isExpired env)).map cleanup.MergeRequest.iid := by
  have hcs := cleanup.classify_spec env mrs hJ
  have hjiraEv : cleanup.updateEvents (cleanup.classifyExpiredLoop env mrs).1 = [] :=
    cleanup.updateEvents_eq_nil _ (fun e he iid => by
      obtain ⟨id, rfl⟩ := cleanup.classify_shape env mrs e he
      exact fun hcontra => cleanup.Event.noConfusion hcontra)
  cases isDryRun with
  | true =>
    rw [cleanup.closeExpired_dry]
    exact ⟨hcs, by rw [if_pos rfl]; exact hjiraEv⟩
  | false =>
    rw [cleanup.closeExpired_false_ok env mrs _ hUpd hcs]
    refine ⟨rfl, ?_⟩
    rw [if_neg (by exact Bool.false_ne_true), cleanup.updateEvents_append, hjiraEv,
      cleanup.updateEvents_updates]
    rfl

/-- Witness for C2 at `envA` and `[mr1]`: the four-month-old merge request is
classified expired and closed. -/
theorem closeExpiredMergeRequests_spec_witness :
    (cleanup.closeExpiredMergeRequests cleanup.envA [cleanup.mr1] false).2 =
        some ([cleanup.mr1].filter (cleanup.isExpired cleanup.envA)) ∧
      cleanup.updateEvents (cleanup.closeExpiredMergeRequests cleanup.envA [cleanup.mr1] false).1 =
        if false then []
        else ([cleanup.mr1].filter (cleanup.isExpired cleanup.envA)).map
          cleanup.MergeRequest.iid :=
  closeExpiredMergeRequests_spec cleanup.envA [cleanup.mr1] false
    (fun mr hmr h3 _ => by
      rw [List.mem_singleton.mp hmr] at h3
      exact absurd (by decide) h3)
    (fun _ => rfl)

/-- C5 counterexample: with the two cutoffs of the scripts, the merge request
`mr1` (older than both thresholds) appears in the stale list AND in the
expired list of the same input: the two lists are not disjoint. -/
theorem stale_expired_overlap_counterexample :
    cleanup.mr1 ∈ cleanup.filterStaleMergeRequests cleanup.envA [cleanup.mr1] ∧
      (cleanup.closeExpiredMergeRequests cleanup.envA [cleanup.mr1] true).2 =
        some [cleanup.mr1] ∧
      cleanup.mr1 ∈ [cleanup.mr1] := by
  decide

/-- C5 amended: the filter stage does not partition: since the three-month
cutoff precedes the two-month cutoff, every merge request older than the
longer threshold appears both in the stale list and in the expired list. -/
theorem stale_expired_overlap (env : cleanup.Env) (mrs expired : List cleanup.MergeRequest)
    (mr : cleanup.MergeRequest) (isDryRun : Bool)
    (hcut : env.threeMonthsAgo ≤ env.twoMonthsAgo)
    (hclose : (cleanup.closeExpiredMergeRequests env mrs isDryRun).2 = some expired)
    (hmem : mr ∈ mrs) (h3 : mr.updatedAt < env.threeMonthsAgo) :
    mr ∈ cleanup.filterStaleMergeRequests env mrs ∧ mr ∈ expired := by
  constructor
  · rw [cleanup.filterStaleMergeRequests, List.mem_filter]
    exact ⟨hmem, decide_eq_true (lt_of_lt_of_le h3 hcut)⟩
  · exact cleanup.classify_expired_mem env mrs expired
      (cleanup.closeExpired_some_inv env mrs expired isDryRun hclose) mr hmem h3

/-- Witness for C5 amended at `envA`, `[mr1]`. -/
theorem stale_expired_overlap_witness :
    cleanup.mr1 ∈ cleanup.filterStaleMergeRequests cleanup.envA [cleanup.mr1] ∧
      cleanup.mr1 ∈ [cleanup.mr1] :=
  stale_expired_overlap cleanup.envA [cleanup.mr1] [cleanup.mr1] cleanup.mr1 true
    (by decide) (by decide) (by decide) (by decide)

namespace cleanup

theorem drop_eq_get_cons {α : Type} :
    ∀ (l : List α) (k : Nat) (hk : k < l.length),
      l.drop k = l.get ⟨k, hk⟩ :: l.drop (k + 1) := by
  intro l
  induction l with
  | nil => intro k hk; exact absurd hk (by simp)
  | cons a rest ih =>
    intro k hk
    match k with
    | 0 => rfl
    | k + 1 => exact ih k (Nat.lt_of_succ_lt_succ hk)

theorem pagesEnv_req {α : Type} (pages : List (List α)) (k : Nat) (hk : k < pages.length) :
    pagesEnv pages (if k = 0 then 0 else k + 1) =
      FetchResult.ok (pages.get ⟨k, hk⟩) (if k + 1 < pages.length then k + 2 else 0) := by
  rw [pagesEnv]
  have hidx : (if (if k = 0 then 0 else k + 1) = 0 then 0
      else (if k = 0 then 0 else k + 1) - 1) = k := by
    by_cases h0 : k = 0 <;> simp [h0]
  rw [hidx, List.get?_eq_get hk]

theorem fetchPages_pagesEnv {α : Type} (mk : Nat → Event) (pages : List (List α)) :
    ∀ fuel k, k < pages.length → pages.length - k ≤ fuel →
      (fetchPages (pagesEnv pages) mk fuel (if k = 0 then 0 else k + 1)).2 =
        some ((pages.drop k).flatten) := by
  intro fuel
  induction fuel with
  | zero =>
    intro k hk hf
    omega
  | succ fuel ih =>
    intro k hk hf
    rw [fetchPages, pagesEnv_req pages k hk]
    by_cases hlt : k + 1 < pages.length
    · rw [if_pos hlt]
      have ih2 := ih (k + 1) hlt (by omega)
      rw [show (if k + 1 = 0 then 0 else (k + 1) + 1) = k + 2 from by simp] at ih2
      show ((fetchPages (pagesEnv pages) mk fuel (k + 2)).2.map
        (fun tail => pages.get ⟨k, hk⟩ ++ tail)) = some ((pages.drop k).flatten)
      rw [ih2, drop_eq_get_cons pages k hk]
      rfl
    · rw [if_neg hlt]
      show some (pages.get ⟨k, hk⟩) = some ((pages.drop k).flatten)
      rw [drop_eq_get_cons pages k hk,
        List.drop_eq_nil_of_le (by omega : pages.length ≤ k + 1)]
      simp

end cleanup

/-- C4 counterexample: with two pages of merge requests, the first script's
`getMergeRequests` makes a single list call and returns only the first page,
not the concatenation of all pages (fetched by the paginated fetcher). -/
theorem pagination_counterexample :
    (cleanup.getMergeRequestsSingle (cleanup.pagesEnv [[cleanup.mr1], [cleanup.mr2]])).2 =
        some [cleanup.mr1] ∧
      [[cleanup.mr1], [cleanup.mr2]].flatten = [cleanup.mr1, cleanup.mr2] ∧
      some [cleanup.mr1] ≠ some [cleanup.mr1, cleanup.mr2] ∧
      (cleanup.fetchPages (cleanup.pagesEnv [[cleanup.mr1], [cleanup.mr2]])
          cleanup.Event.listMergeRequests 3 0).2 = some [cleanup.mr1, cleanup.mr2] := by
  decide

/-- C4 amended: the branch-cleanup script's fetchers (`getBranches` and its
`getMergeRequests`) paginate and return the concatenation of all pages, for
every well-behaved page sequence (given fuel for every page); the first
script's `getMergeRequests` performs exactly one list call and returns only
the first page. -/
theorem pagination_amended :
    (∀ (pages : List (List cleanup.Branch)) (fuel : Nat), pages.length < fuel →
      (cleanup.fetchPages (cleanup.pagesEnv pages) cleanup.Event.listBranches fuel 0).2 =
        some pages.flatten) ∧
      (∀ (pages : List (List cleanup.MergeRequest)) (fuel : Nat), pages.length < fuel →
        (cleanup.fetchPages (cleanup.pagesEnv pages) cleanup.Event.listMergeRequests fuel 0).2 =
          some pages.flatten) ∧
      ∀ pages : List (List cleanup.MergeRequest),
        (cleanup.getMergeRequestsSingle (cleanup.pagesEnv pages)).1 =
            [cleanup.Event.listMergeRequests 0] ∧
          (cleanup.getMergeRequestsSingle (cleanup.pagesEnv pages)).2 =
            some (pages.headD []) := by
  refine ⟨?_, ?_, ?_⟩
  · intro pages fuel hfuel
    cases pages with
    | nil =>
      match fuel, hfuel with
      | fuel + 1, _ => rfl
    | cons q rest =>
      have h := cleanup.fetchPages_pagesEnv cleanup.Event.listBranches (q :: rest) fuel 0
        (by simp) (by omega)
      simpa using h
  · intro pages fuel hfuel
    cases pages with
    | nil =>
      match fuel, hfuel with
      | fuel + 1, _ => rfl
    | cons q rest =>
      have h := cleanup.fetchPages_pagesEnv cleanup.Event.listMergeRequests (q :: rest) fuel 0
        (by simp) (by omega)
      simpa using h
  · intro pages
    cases pages with
    | nil => exact ⟨rfl, rfl⟩
    | cons q rest => exact ⟨rfl, rfl⟩

/-- Witness for C4 amended at two concrete pages and fuel 3. -/
theorem pagination_amended_witness :
    (cleanup.fetchPages (cleanup.pagesEnv [[cleanup.b1], [cleanup.b2]])
          cleanup.Event.listBranches 3 0).2 = some [[cleanup.b1], [cleanup.b2]].flatten ∧
      (cleanup.fetchPages (cleanup.pagesEnv [[cleanup.mr1], [cleanup.mr2]])
          cleanup.Event.listMergeRequests 3 0).2 = some [[cleanup.mr1], [cleanup.mr2]].flatten :=
  ⟨pagination_amended.1 [[cleanup.b1], [cleanup.b2]] 3 (by decide),
    pagination_amended.2.1 [[cleanup.mr1], [cleanup.mr2]] 3 (by decide)⟩

namespace cleanup

theorem delete_dry (env : Env) (l : List Branch) :
    deleteStaleBranches env l true = ([], some ()) := rfl

theorem delete_false (env : Env) (l : List Branch) :
    deleteStaleBranches env l false = deleteBranchesLoop env l := rfl

theorem invite_dry (env : Env) (m : List (String × String)) :
    inviteUsersToSlackChannel env m true = [] := rfl

theorem invite_false (env : Env) (m : List (String × String)) :
    inviteUsersToSlackChannel env m false =
      [Event.inviteUsersToConversation (m.map Prod.snd)] := rfl

theorem post_dry (env : Env) : buildAndPostSlackMessage env true = ([], some ()) := rfl

theorem post_false_trace (env : Env) :
    (buildAndPostSlackMessage env false).1 = [Event.postMessage] := by
  rw [buildAndPostSlackMessage]
  by_cases hp : env.postMessageOk <;> simp [hp]

theorem post_false_ok (env : Env) (hPost : env.postMessageOk = true) :
    buildAndPostSlackMessage env false = ([Event.postMessage], some ()) := by
  rw [buildAndPostSlackMessage, hPost]
  rfl

theorem updates_mutating (l : List MergeRequest) :
    ∀ e ∈ l.map (fun mr => Event.updateMergeRequest mr.iid), e.isMutating = true := by
  intro e he
  obtain ⟨mr, _, rfl⟩ := List.mem_map.mp he
  rfl

theorem deletes_mutating (l : List Branch) :
    ∀ e ∈ l.map (fun b => Event.deleteBranch b.name), e.isMutating = true := by
  intro e he
  obtain ⟨b, _, rfl⟩ := List.mem_map.mp he
  rfl

theorem fetchPages_reads {α : Type} (f : Nat → FetchResult α) (mk : Nat → Event)
    (hmk : ∀ p, (mk p).isMutating = false) (fuel page : Nat) :
    ∀ e ∈ (fetchPages f mk fuel page).1, e.isMutating = false := by
  intro e he
  obtain ⟨p, rfl⟩ := fetchPages_shape f mk fuel page e he
  exact hmk p

theorem classify_reads (env : Env) (mrs : List MergeRequest) :
    ∀ e ∈ (classifyExpiredLoop env mrs).1, e.isMutating = false := by
  intro e he
  obtain ⟨id, rfl⟩ := classify_shape env mrs e he
  rfl

theorem slackUsers_reads (env : Env) (staleMRs expiredMRs : List MergeRequest) :
    ∀ e ∈ (getSlackUserIDsFromGitLabUserIDs env staleMRs expiredMRs).1,
      e.isMutating = false := by
  intro e he
  obtain ⟨em, rfl⟩ := slackUsers_shape env staleMRs expiredMRs e he
  rfl

theorem mrStages_dry_reads (env : Env) (mrs : List MergeRequest) :
    ∀ e ∈ (runMergeRequestStages env mrs true).1, e.isMutating = false := by
  intro e he
  rw [runMergeRequestStages] at he
  dsimp only at he
  rw [closeExpired_dry env mrs] at he
  dsimp only at he
  split at he
  · exact classify_reads env mrs e he
  · split at he
    · exact classify_reads env mrs e he
    · rw [invite_dry, post_dry] at he
      simp only [List.append_nil, List.mem_append] at he
      rcases he with h | h
      · exact classify_reads env mrs e h
      · exact slackUsers_reads env _ _ e h

theorem mrStages_filter (env : Env) (mrs : List MergeRequest)
    (hUpd : ∀ iid, env.updateMergeRequestOk iid = true) :
    (runMergeRequestStages env mrs true).1 =
      (runMergeRequestStages env mrs false).1.filter (fun e => !e.isMutating) := by
  rw [runMergeRequestStages, runMergeRequestStages]
  dsimp only
  rcases hc : (classifyExpiredLoop env mrs).2 with _ | expired
  · rw [closeExpired_none env mrs true hc, closeExpired_none env mrs false hc]
    dsimp only
    exact (filter_keep _ (classify_reads env mrs)).symm
  · rw [closeExpired_dry env mrs, closeExpired_false_ok env mrs expired hUpd hc]
    dsimp only
    rw [hc]
    dsimp only
    by_cases hemp : (filterStaleMergeRequests env mrs).isEmpty && expired.isEmpty
    · rw [if_pos hemp, if_pos hemp]
      rw [List.filter_append, filter_keep _ (classify_reads env mrs),
        filter_drop _ (updates_mutating expired), List.append_nil]
    · rw [if_neg hemp, if_neg hemp]
      rw [invite_dry, invite_false, post_dry, post_false_trace]
      simp only [List.append_nil, List.filter_append]
      rw [filter_keep _ (classify_reads env mrs),
        filter_drop _ (updates_mutating expired),
        filter_keep _ (slackUsers_reads env _ _), List.append_nil]
      have h1 : List.filter (fun e => !e.isMutating)
          [Event.inviteUsersToConversation
            ((getSlackUserIDsFromGitLabUserIDs env (filterStaleMergeRequests env mrs)
              expired).2.map Prod.snd)] = [] := rfl
      have h2 : List.filter (fun e => !e.isMutating) [Event.postMessage] = [] := rfl
      rw [h1, h2, List.append_nil, List.append_nil]

theorem mrStages_isSome (env : Env) (mrs : List MergeRequest) (isDryRun : Bool)
    (hJ : ∀ issueID, env.jiraGet issueID ≠ JiraResult.fail)
    (hUpd : ∀ iid, env.updateMergeRequestOk iid = true)
    (hPost : env.postMessageOk = true) :
    (runMergeRequestStages env mrs isDryRun).2.isSome := by
  have hcs := classify_spec env mrs (fun mr _ _ _ => hJ _)
  rw [runMergeRequestStages]
  dsimp only
  cases isDryRun with
  | true =>
    rw [closeExpired_dry env mrs]
    dsimp only
    rw [hcs]
    dsimp only
    by_cases hemp : (filterStaleMergeRequests env mrs).isEmpty &&
        (mrs.filter (isExpired env)).isEmpty
    · rw [if_pos hemp]
      rfl
    · rw [if_neg hemp, post_dry]
      rfl
  | false =>
    rw [closeExpired_false_ok env mrs _ hUpd hcs]
    dsimp only
    by_cases hemp : (filterStaleMergeRequests env mrs).isEmpty &&
        (mrs.filter (isExpired env)).isEmpty
    · rw [if_pos hemp]
      rfl
    · rw [if_neg hemp, post_false_ok env hPost]
      rfl

theorem closeExpired_false_eq (env : Env) (mrs expired : List MergeRequest)
    (hc : (classifyExpiredLoop env mrs).2 = some expired) :
    closeExpiredMergeRequests env mrs false =
      ((classifyExpiredLoop env mrs).1 ++ (updateMergeRequestsLoop env expired).1,
        (updateMergeRequestsLoop env expired).2.map (fun _ => expired)) := by
  rw [closeExpiredMergeRequests, hc]
  rfl

theorem mrStages_no_delete (env : Env) (mrs : List MergeRequest) (isDryRun : Bool) :
    ∀ e ∈ (runMergeRequestStages env mrs isDryRun).1, ∀ nm, e ≠ Event.deleteBranch nm := by
  cases isDryRun with
  | true =>
    intro e he nm hcontra
    have hread := mrStages_dry_reads env mrs e he
    rw [hcontra] at hread
    exact absurd hread (by simp [Event.isMutating])
  | false =>
    intro e he
    rw [runMergeRequestStages] at he
    dsimp only at he
    rcases hc : (classifyExpiredLoop env mrs).2 with _ | expired
    · rw [closeExpired_none env mrs false hc] at he
      dsimp only at he
      obtain ⟨id, rfl⟩ := classify_shape env mrs e he
      intro nm
      exact Event.noConfusion
    · rw [closeExpired_false_eq env mrs expired hc] at he
      dsimp only at he
      rcases hu : (updateMergeRequestsLoop env expired).2 with _ | u <;> rw [hu] at he <;>
        simp only [Option.map_none', Option.map_some'] at he
      · rcases List.mem_append.mp he with h | h
        · obtain ⟨id, rfl⟩ := classify_shape env mrs e h
          intro nm
          exact Event.noConfusion
        · obtain ⟨iid, rfl⟩ := updateLoop_shape env expired e h
          intro nm
          exact Event.noConfusion
      · split at he
        · rcases List.mem_append.mp he with h | h
          · obtain ⟨id, rfl⟩ := classify_shape env mrs e h
            intro nm
            exact Event.noConfusion
          · obtain ⟨iid, rfl⟩ := updateLoop_shape env expired e h
            intro nm
            exact Event.noConfusion
        · simp only [List.mem_append] at he
          rcases he with ((he | he) | he) | he
          · rcases he with he | he
            · obtain ⟨id, rfl⟩ := classify_shape env mrs e he
              intro nm
              exact Event.noConfusion
            · obtain ⟨iid, rfl⟩ := updateLoop_shape env expired e he
              intro nm
              exact Event.noConfusion
          · obtain ⟨em, rfl⟩ := slackUsers_shape env _ _ e he
            intro nm
            exact Event.noConfusion
          · rw [invite_false] at he
            rw [List.mem_singleton.mp he]
            intro nm
            exact Event.noConfusion
          · rw [post_false_trace] at he
            rw [List.mem_singleton.mp he]
            intro nm
            exact Event.noConfusion

end cleanup

namespace cleanup

theorem single_trace (f : Nat → FetchResult MergeRequest) :
    (getMergeRequestsSingle f).1 = [Event.listMergeRequests 0] := by
  rw [getMergeRequestsSingle]
  rcases f 0 with ⟨items, next⟩ | _ <;> rfl

theorem branchCleanup_dry_reads (env : Env) (fuel : Nat) :
    ∀ e ∈ (runBranchCleanup env fuel true).1, e.isMutating = false := by
  intro e he
  rw [runBranchCleanup] at he
  dsimp only at he
  rcases hb : fetchPages env.listBranches Event.listBranches fuel 0 with ⟨btr, bres⟩
  rw [hb] at he
  dsimp only at he
  have hbtr : ∀ e2 ∈ btr, e2.isMutating = false := fun e2 he2 =>
    fetchPages_reads env.listBranches Event.listBranches (fun _ => rfl) fuel 0 e2
      (by rw [hb]; exact he2)
  rcases bres with _ | branches
  · exact hbtr e he
  · dsimp only at he
    rw [delete_dry] at he
    dsimp only at he
    rcases hm : fetchPages env.listMergeRequests Event.listMergeRequests fuel 0 with ⟨mtr, mres⟩
    rw [hm] at he
    dsimp only at he
    have hmtr : ∀ e2 ∈ mtr, e2.isMutating = false := fun e2 he2 =>
      fetchPages_reads env.listMergeRequests Event.listMergeRequests (fun _ => rfl) fuel 0 e2
        (by rw [hm]; exact he2)
    rcases mres with _ | mrs
    · dsimp only at he
      simp only [List.append_nil, List.mem_append] at he
      rcases he with he | he
      · exact hbtr e he
      · exact hmtr e he
    · dsimp only at he
      simp only [List.append_nil, List.mem_append] at he
      rcases he with (he | he) | he
      · exact hbtr e he
      · exact hmtr e he
      · exact mrStages_dry_reads env mrs e he

theorem branchCleanup_filter (env : Env) (fuel : Nat)
    (hDel : ∀ nm, env.deleteBranchOk nm = true)
    (hUpd : ∀ iid, env.updateMergeRequestOk iid = true) :
    (runBranchCleanup env fuel true).1 =
      (runBranchCleanup env fuel false).1.filter (fun e => !e.isMutating) := by
  rw [runBranchCleanup, runBranchCleanup]
  dsimp only
  rcases hb : fetchPages env.listBranches Event.listBranches fuel 0 with ⟨btr, bres⟩
  dsimp only
  have hbtr : ∀ e2 ∈ btr, e2.isMutating = false := fun e2 he2 =>
    fetchPages_reads env.listBranches Event.listBranches (fun _ => rfl) fuel 0 e2
      (by rw [hb]; exact he2)
  rcases bres with _ | branches
  · exact (filter_keep btr hbtr).symm
  · dsimp only
    rw [delete_dry, delete_false, deleteLoop_ok env hDel]
    dsimp only
    rcases hm : fetchPages env.listMergeRequests Event.listMergeRequests fuel 0 with ⟨mtr, mres⟩
    dsimp only
    have hmtr : ∀ e2 ∈ mtr, e2.isMutating = false := fun e2 he2 =>
      fetchPages_reads env.listMergeRequests Event.listMergeRequests (fun _ => rfl) fuel 0 e2
        (by rw [hm]; exact he2)
    rcases mres with _ | mrs
    · dsimp only
      rw [List.filter_append, List.filter_append, filter_keep btr hbtr,
        filter_drop _ (deletes_mutating _), filter_keep mtr hmtr, List.append_nil]
    · dsimp only
      rw [List.filter_append, List.filter_append, List.filter_append,
        filter_keep btr hbtr, filter_drop _ (deletes_mutating _),
        filter_keep mtr hmtr, mrStages_filter env mrs hUpd, List.append_nil]

theorem mrCleanup_dry_reads (env : Env) :
    ∀ e ∈ (runMergeRequestCleanup env true).1, e.isMutating = false := by
  intro e he
  rw [runMergeRequestCleanup] at he
  dsimp only at he
  rcases hm : getMergeRequestsSingle env.listMergeRequests with ⟨mtr, mres⟩
  rw [hm] at he
  dsimp only at he
  have hsingle : mtr = [Event.listMergeRequests 0] := by
    have hs := single_trace env.listMergeRequests
    rw [hm] at hs
    exact hs
  have hmtr : ∀ e2 ∈ mtr, e2.isMutating = false := by
    intro e2 he2
    rw [hsingle] at he2
    rw [List.mem_singleton.mp he2]
    rfl
  rcases mres with _ | mrs
  · exact hmtr e he
  · dsimp only at he
    rcases List.mem_append.mp he with h | h
    · exact hmtr e h
    · exact mrStages_dry_reads env mrs e h

theorem mrCleanup_filter (env : Env)
    (hUpd : ∀ iid, env.updateMergeRequestOk iid = true) :
    (runMergeRequestCleanup env true).1 =
      (runMergeRequestCleanup env false).1.filter (fun e => !e.isMutating) := by
  rw [runMergeRequestCleanup, runMergeRequestCleanup]
  dsimp only
  rcases hm : getMergeRequestsSingle env.listMergeRequests with ⟨mtr, mres⟩
  dsimp only
  have hsingle : mtr = [Event.listMergeRequests 0] := by
    have hs := single_trace env.listMergeRequests
    rw [hm] at hs
    exact hs
  have hmtr : ∀ e2 ∈ mtr, e2.isMutating = false := by
    intro e2 he2
    rw [hsingle] at he2
    rw [List.mem_singleton.mp he2]
    rfl
  rcases mres with _ | mrs
  · exact (filter_keep mtr hmtr).symm
  · dsimp only
    rw [List.filter_append, filter_keep mtr hmtr, mrStages_filter env mrs hUpd]

end cleanup

/-- C1: in a dry run of either cleanup script, no mutating or notifying call
(`UpdateMergeRequest`, `DeleteBranch`, `InviteUsersToConversation`,
`PostMessage`) is ever made; and assuming the suppressed mutating calls would
succeed, the dry-run trace is exactly the subsequence of read/query calls of
the corresponding real run (listing calls, JIRA lookups, Slack user
lookups): the read steps still execute. -/
theorem dryRun_spec (env : cleanup.Env) (fuel : Nat)
    (hDel : ∀ nm, env.deleteBranchOk nm = true)
    (hUpd : ∀ iid, env.updateMergeRequestOk iid = true) :
    (∀ e ∈ (cleanup.runBranchCleanup env fuel true).1, e.isMutating = false) ∧
      (∀ e ∈ (cleanup.runMergeRequestCleanup env true).1, e.isMutating = false) ∧
      (cleanup.runBranchCleanup env fuel true).1 =
        (cleanup.runBranchCleanup env fuel false).1.filter (fun e => !e.isMutating) ∧
      (cleanup.runMergeRequestCleanup env true).1 =
        (cleanup.runMergeRequestCleanup env false).1.filter (fun e => !e.isMutating) :=
  ⟨cleanup.branchCleanup_dry_reads env fuel, cleanup.mrCleanup_dry_reads env,
    cleanup.branchCleanup_filter env fuel hDel hUpd, cleanup.mrCleanup_filter env hUpd⟩

/-- Witness for C1 at the concrete environment `envA` with fuel 1. -/
theorem dryRun_spec_witness :
    (cleanup.runBranchCleanup cleanup.envA 1 true).1 =
        (cleanup.runBranchCleanup cleanup.envA 1 false).1.filter
          (fun e => !e.isMutating) ∧
      (cleanup.runMergeRequestCleanup cleanup.envA true).1 =
        (cleanup.runMergeRequestCleanup cleanup.envA false).1.filter
          (fun e => !e.isMutating) :=
  ⟨(dryRun_spec cleanup.envA 1 (fun _ => rfl) (fun _ => rfl)).2.2.1,
    (dryRun_spec cleanup.envA 1 (fun _ => rfl) (fun _ => rfl)).2.2.2⟩

namespace cleanup

theorem branchCleanup_isSome (env : Env) (fuel : Nat) (isDryRun : Bool)
    (hB : (fetchPages env.listBranches Event.listBranches fuel 0).2.isSome)
    (hM : (fetchPages env.listMergeRequests Event.listMergeRequests fuel 0).2.isSome)
    (hJ : ∀ issueID, env.jiraGet issueID ≠ JiraResult.fail)
    (hDel : ∀ nm, env.deleteBranchOk nm = true)
    (hUpd : ∀ iid, env.updateMergeRequestOk iid = true)
    (hPost : env.postMessageOk = true) :
    (runBranchCleanup env fuel isDryRun).2.isSome := by
  rw [runBranchCleanup]
  dsimp only
  rcases hb : fetchPages env.listBranches Event.listBranches fuel 0 with ⟨btr, bres⟩
  rw [hb] at hB
  rcases bres with _ | branches
  · exact absurd hB (by simp)
  · dsimp only
    have hdel : (deleteStaleBranches env (filterStaleNonProtectedBranches env branches)
        isDryRun).2 = some () := by
      cases isDryRun with
      | true => rfl
      | false => rw [delete_false, deleteLoop_ok env hDel]
    rcases hd : deleteStaleBranches env (filterStaleNonProtectedBranches env branches)
        isDryRun with ⟨dtr, dres⟩
    rw [hd] at hdel
    replace hdel : dres = some () := hdel
    subst hdel
    dsimp only
    rcases hm : fetchPages env.listMergeRequests Event.listMergeRequests fuel 0 with ⟨mtr, mres⟩
    rw [hm] at hM
    rcases mres with _ | mrs
    · exact absurd hM (by simp)
    · dsimp only
      exact mrStages_isSome env mrs isDryRun hJ hUpd hPost

theorem branchCleanup_deleteEvents (env : Env) (fuel : Nat) (branches : List Branch)
    (hFetch : (fetchPages env.listBranches Event.listBranches fuel 0).2 = some branches) :
    deleteEvents (runBranchCleanup env fuel false).1 =
      deleteEvents (deleteBranchesLoop env (filterStaleNonProtectedBranches env branches)).1 := by
  rw [runBranchCleanup]
  dsimp only
  rcases hb : fetchPages env.listBranches Event.listBranches fuel 0 with ⟨btr, bres⟩
  rw [hb] at hFetch
  replace hFetch : bres = some branches := hFetch
  subst hFetch
  dsimp only
  rw [delete_false]
  have hbtrNil : deleteEvents btr = [] := deleteEvents_eq_nil btr (fun e he nm => by
    obtain ⟨p, rfl⟩ := fetchPages_shape env.listBranches Event.listBranches fuel 0 e
      (by rw [hb]; exact he)
    exact Event.noConfusion)
  rcases hd : deleteBranchesLoop env (filterStaleNonProtectedBranches env branches)
    with ⟨dtr, dres⟩
  dsimp only
  have hdtr : deleteEvents dtr =
      deleteEvents (deleteBranchesLoop env
        (filterStaleNonProtectedBranches env branches)).1 := by
    rw [hd]
  rcases dres with _ | u
  · rw [deleteEvents_append, hbtrNil, List.nil_append, hdtr]
  · dsimp only
    rcases hm : fetchPages env.listMergeRequests Event.listMergeRequests fuel 0 with ⟨mtr, mres⟩
    dsimp only
    have hmtrNil : deleteEvents mtr = [] := deleteEvents_eq_nil mtr (fun e he nm => by
      obtain ⟨p, rfl⟩ := fetchPages_shape env.listMergeRequests Event.listMergeRequests fuel 0 e
        (by rw [hm]; exact he)
      exact Event.noConfusion)
    rcases mres with _ | mrs
    · dsimp only
      rw [deleteEvents_append, deleteEvents_append, hbtrNil, hmtrNil, List.nil_append,
        List.append_nil, hdtr]
    · dsimp only
      have htNil : deleteEvents (runMergeRequestStages env mrs false).1 = [] :=
        deleteEvents_eq_nil _ (mrStages_no_delete env mrs false)
      rw [deleteEvents_append, deleteEvents_append, deleteEvents_append, hbtrNil, hmtrNil,
        htNil, List.nil_append, List.append_nil, List.append_nil, hdtr]

theorem mrListing_fail_aborts (env : Env) (fuel : Nat) (isDryRun : Bool)
    (hM : (fetchPages env.listMergeRequests Event.listMergeRequests fuel 0).2 = none) :
    (runBranchCleanup env fuel isDryRun).2 = none ∧
      ∀ e ∈ (runBranchCleanup env fuel isDryRun).1,
        (∃ p, e = Event.listBranches p) ∨ (∃ nm, e = Event.deleteBranch nm) ∨
          ∃ p, e = Event.listMergeRequests p := by
  rw [runBranchCleanup]
  dsimp only
  rcases hb : fetchPages env.listBranches Event.listBranches fuel 0 with ⟨btr, bres⟩
  dsimp only
  have hbtr : ∀ e ∈ btr, ∃ p, e = Event.listBranches p := fun e he =>
    fetchPages_shape env.listBranches Event.listBranches fuel 0 e (by rw [hb]; exact he)
  rcases bres with _ | branches
  · exact ⟨rfl, fun e he => Or.inl (hbtr e he)⟩
  · dsimp only
    cases isDryRun with
    | true =>
      rw [delete_dry]
      dsimp only
      rcases hm : fetchPages env.listMergeRequests Event.listMergeRequests fuel 0 with ⟨mtr, mres⟩
      rw [hm] at hM
      replace hM : mres = none := hM
      subst hM
      dsimp only
      have hmtr : ∀ e ∈ mtr, ∃ p, e = Event.listMergeRequests p := fun e he =>
        fetchPages_shape env.listMergeRequests Event.listMergeRequests fuel 0 e
          (by rw [hm]; exact he)
      refine ⟨rfl, ?_⟩
      intro e he
      simp only [List.append_nil, List.mem_append] at he
      rcases he with he | he
      · exact Or.inl (hbtr e he)
      · exact Or.inr (Or.inr (hmtr e he))
    | false =>
      rw [delete_false]
      rcases hdl : deleteBranchesLoop env (filterStaleNonProtectedBranches env branches)
        with ⟨dtr, dres⟩
      dsimp only
      have hdtr : ∀ e ∈ dtr, ∃ nm, e = Event.deleteBranch nm := by
        intro e he
        obtain ⟨b, _, rfl⟩ := deleteLoop_shape env _ e (by rw [hdl]; exact he)
        exact ⟨b.name, rfl⟩
      rcases dres with _ | u
      · refine ⟨rfl, ?_⟩
        intro e he
        rcases List.mem_append.mp he with he | he
        · exact Or.inl (hbtr e he)
        · exact Or.inr (Or.inl (hdtr e he))
      · dsimp only
        rcases hm : fetchPages env.listMergeRequests Event.listMergeRequests fuel 0
          with ⟨mtr, mres⟩
        rw [hm] at hM
        replace hM : mres = none := hM
        subst hM
        dsimp only
        have hmtr : ∀ e ∈ mtr, ∃ p, e = Event.listMergeRequests p := fun e he =>
          fetchPages_shape env.listMergeRequests Event.listMergeRequests fuel 0 e
            (by rw [hm]; exact he)
        refine ⟨rfl, ?_⟩
        intro e he
        simp only [List.mem_append] at he
        rcases he with (he | he) | he
        · exact Or.inl (hbtr e he)
        · exact Or.inr (Or.inl (hdtr e he))
        · exact Or.inr (Or.inr (hmtr e he))

theorem delete_fail_aborts (env : Env) (fuel : Nat) (branches : List Branch)
    (hFetch : (fetchPages env.listBranches Event.listBranches fuel 0).2 = some branches)
    (hDelFail : (deleteBranchesLoop env (filterStaleNonProtectedBranches env branches)).2 =
      none) :
    (runBranchCleanup env fuel false).2 = none ∧
      ∀ e ∈ (runBranchCleanup env fuel false).1,
        (∃ p, e = Event.listBranches p) ∨ ∃ nm, e = Event.deleteBranch nm := by
  rw [runBranchCleanup]
  dsimp only
  rcases hb : fetchPages env.listBranches Event.listBranches fuel 0 with ⟨btr, bres⟩
  rw [hb] at hFetch
  replace hFetch : bres = some branches := hFetch
  subst hFetch
  dsimp only
  rw [delete_false]
  rcases hdl : deleteBranchesLoop env (filterStaleNonProtectedBranches env branches)
    with ⟨dtr, dres⟩
  rw [hdl] at hDelFail
  replace hDelFail : dres = none := hDelFail
  subst hDelFail
  dsimp only
  have hbtr : ∀ e ∈ btr, ∃ p, e = Event.listBranches p := fun e he =>
    fetchPages_shape env.listBranches Event.listBranches fuel 0 e (by rw [hb]; exact he)
  have hdtr : ∀ e ∈ dtr, ∃ nm, e = Event.deleteBranch nm := by
    intro e he
    obtain ⟨b, _, rfl⟩ := deleteLoop_shape env _ e (by rw [hdl]; exact he)
    exact ⟨b.name, rfl⟩
  refine ⟨rfl, ?_⟩
  intro e he
  rcases List.mem_append.mp he with he | he
  · exact Or.inl (hbtr e he)
  · exact Or.inr (hdtr e he)

theorem update_fail_aborts (env : Env) (mrs expired : List MergeRequest)
    (hClass : (classifyExpiredLoop env mrs).2 = some expired)
    (hUpdFail : (updateMergeRequestsLoop env expired).2 = none) :
    (closeExpiredMergeRequests env mrs false).2 = none := by
  rw [closeExpired_false_eq env mrs expired hClass]
  dsimp only
  rw [hUpdFail]
  rfl

theorem closeExpired_fail_stops_stages (env : Env) (mrs : List MergeRequest)
    (isDryRun : Bool) (hFail : (closeExpiredMergeRequests env mrs isDryRun).2 = none) :
    runMergeRequestStages env mrs isDryRun =
      ((closeExpiredMergeRequests env mrs isDryRun).1, none) := by
  rw [runMergeRequestStages]
  dsimp only
  rcases hc : closeExpiredMergeRequests env mrs isDryRun with ⟨ctr, cres⟩
  rw [hc] at hFail
  replace hFail : cres = none := hFail
  subst hFail
  rfl

theorem classify_jira_fail_aborts (env : Env) :
    ∀ (pre : List MergeRequest) (mr : MergeRequest) (rest : List MergeRequest),
      ¬(mr.updatedAt < env.threeMonthsAgo) →
      mrtitle.getJiraIssueID mr.title ≠ "" →
      env.jiraGet (mrtitle.getJiraIssueID mr.title) = JiraResult.fail →
      (classifyExpiredLoop env (pre ++ mr :: rest)).2 = none := by
  intro pre
  induction pre with
  | nil =>
    intro mr rest h3 hid hj
    rw [List.nil_append, classifyExpiredLoop, if_neg h3, if_neg hid, hj]
  | cons p rest0 ih =>
    intro mr rest h3 hid hj
    have ihr := ih mr rest h3 hid hj
    rw [List.cons_append, classifyExpiredLoop]
    by_cases hp3 : p.updatedAt < env.threeMonthsAgo
    · rw [if_pos hp3]
      show (classifyExpiredLoop env (rest0 ++ mr :: rest)).2.map (fun tail => p :: tail) = none
      rw [ihr]
      rfl
    · rw [if_neg hp3]
      by_cases hpid : mrtitle.getJiraIssueID p.title = ""
      · rw [if_pos hpid]
        exact ihr
      · rw [if_neg hpid]
        split
        · rfl
        · show (classifyExpiredLoop env (rest0 ++ mr :: rest)).2 = none
          exact ihr
        · rename_i s hjp
          by_cases hs : s = "Closed"
          · subst hs
            rw [if_pos rfl]
            show (classifyExpiredLoop env (rest0 ++ mr :: rest)).2.map
              (fun tail => p :: tail) = none
            rw [ihr]
            rfl
          · rw [if_neg hs]
            show (classifyExpiredLoop env (rest0 ++ mr :: rest)).2 = none
            exact ihr

theorem classify_jira_notFound_skips (env : Env) (mr : MergeRequest)
    (rest : List MergeRequest) (h3 : ¬(mr.updatedAt < env.threeMonthsAgo))
    (hid : mrtitle.getJiraIssueID mr.title ≠ "")
    (hj : env.jiraGet (mrtitle.getJiraIssueID mr.title) = JiraResult.notFound) :
    classifyExpiredLoop env (mr :: rest) =
      (Event.jiraGet (mrtitle.getJiraIssueID mr.title) :: (classifyExpiredLoop env rest).1,
        (classifyExpiredLoop env rest).2) := by
  rw [classifyExpiredLoop, if_neg h3, if_neg hid, hj]

end cleanup

/-- C6 counterexample: in `envA` the Slack user lookup fails (the client
returns an error, which the script prints before continuing), yet the run
performs the later invite and post-message stages and completes successfully:
a failing HTTP call does not always end the script. -/
theorem error_handling_counterexample :
    cleanup.envA.slackUserByEmail "bob@YOURDOMAIN.com" = none ∧
      cleanup.runBranchCleanup cleanup.envA 1 false =
        ([cleanup.Event.listBranches 0, cleanup.Event.deleteBranch "stale",
          cleanup.Event.listMergeRequests 0, cleanup.Event.updateMergeRequest 1,
          cleanup.Event.slackGetUserByEmail "bob@YOURDOMAIN.com",
          cleanup.Event.slackGetUserByEmail "bob@YOURDOMAIN.com",
          cleanup.Event.inviteUsersToConversation [], cleanup.Event.postMessage],
          some ()) := by
  decide

/-- C6 amended: GitLab listing/delete/update failures and non-404 JIRA
failures abort the script with no later stage running, while JIRA 404
lookups are skipped and Slack user-lookup and invite failures are only
reported.  In order: (a) a failed branch listing ends the run with no
further calls; (b) a failed merge-request listing ends the run, whose trace
then holds only listing and delete calls; (c) a failed branch deletion ends
the run, whose trace then holds only branch-listing and delete calls;
(d) a failed merge-request update makes `closeExpiredMergeRequests` fail;
(e) whenever `closeExpiredMergeRequests` fails, the later stages (Slack
lookups, invite, post) never run; (f) a non-404 JIRA failure anywhere in
the scan makes the classification fail; (g) a JIRA 404 is skipped: the
lookup happens, the merge request is not collected and the scan continues;
(h) when every GitLab call succeeds, no JIRA lookup hard-fails and posting
succeeds, the run completes whatever the Slack lookup and invite results
are. -/
theorem error_handling_amended :
    (∀ (env : cleanup.Env) (fuel : Nat) (isDryRun : Bool),
        env.listBranches 0 = cleanup.FetchResult.fail →
        cleanup.runBranchCleanup env (fuel + 1) isDryRun =
          ([cleanup.Event.listBranches 0], none)) ∧
      (∀ (env : cleanup.Env) (fuel : Nat) (isDryRun : Bool),
        (cleanup.fetchPages env.listMergeRequests
          cleanup.Event.listMergeRequests fuel 0).2 = none →
        (cleanup.runBranchCleanup env fuel isDryRun).2 = none ∧
          ∀ e ∈ (cleanup.runBranchCleanup env fuel isDryRun).1,
            (∃ p, e = cleanup.Event.listBranches p) ∨
              (∃ nm, e = cleanup.Event.deleteBranch nm) ∨
              ∃ p, e = cleanup.Event.listMergeRequests p) ∧
      (∀ (env : cleanup.Env) (fuel : Nat) (branches : List cleanup.Branch),
        (cleanup.fetchPages env.listBranches cleanup.Event.listBranches fuel 0).2 =
          some branches →
        (cleanup.deleteBranchesLoop env
          (cleanup.filterStaleNonProtectedBranches env branches)).2 = none →
        (cleanup.runBranchCleanup env fuel false).2 = none ∧
          ∀ e ∈ (cleanup.runBranchCleanup env fuel false).1,
            (∃ p, e = cleanup.Event.listBranches p) ∨
              ∃ nm, e = cleanup.Event.deleteBranch nm) ∧
      (∀ (env : cleanup.Env) (mrs expired : List cleanup.MergeRequest),
        (cleanup.classifyExpiredLoop env mrs).2 = some expired →
        (cleanup.updateMergeRequestsLoop env expired).2 = none →
        (cleanup.closeExpiredMergeRequests env mrs false).2 = none) ∧
      (∀ (env : cleanup.Env) (mrs : List cleanup.MergeRequest) (isDryRun : Bool),
        (cleanup.closeExpiredMergeRequests env mrs isDryRun).2 = none →
        cleanup.runMergeRequestStages env mrs isDryRun =
          ((cleanup.closeExpiredMergeRequests env mrs isDryRun).1, none)) ∧
      (∀ (env : cleanup.Env) (pre : List cleanup.MergeRequest)
          (mr : cleanup.MergeRequest) (rest : List cleanup.MergeRequest),
        ¬(mr.updatedAt < env.threeMonthsAgo) →
        mrtitle.getJiraIssueID mr.title ≠ "" →
        env.jiraGet (mrtitle.getJiraIssueID mr.title) = cleanup.JiraResult.fail →
        (cleanup.classifyExpiredLoop env (pre ++ mr :: rest)).2 = none) ∧
      (∀ (env : cleanup.Env) (mr : cleanup.MergeRequest)
          (rest : List cleanup.MergeRequest),
        ¬(mr.updatedAt < env.threeMonthsAgo) →
        mrtitle.getJiraIssueID mr.title ≠ "" →
        env.jiraGet (mrtitle.getJiraIssueID mr.title) = cleanup.JiraResult.notFound →
        cleanup.classifyExpiredLoop env (mr :: rest) =
          (cleanup.Event.jiraGet (mrtitle.getJiraIssueID mr.title) ::
            (cleanup.classifyExpiredLoop env rest).1,
            (cleanup.classifyExpiredLoop env rest).2)) ∧
      ∀ (env : cleanup.Env) (fuel : Nat) (isDryRun : Bool),
        (cleanup.fetchPages env.listBranches cleanup.Event.listBranches fuel 0).2.isSome →
        (cleanup.fetchPages env.listMergeRequests
          cleanup.Event.listMergeRequests fuel 0).2.isSome →
        (∀ issueID, env.jiraGet issueID ≠ cleanup.JiraResult.fail) →
        (∀ nm, env.deleteBranchOk nm = true) →
        (∀ iid, env.updateMergeRequestOk iid = true) →
        env.postMessageOk = true →
        (cleanup.runBranchCleanup env fuel isDryRun).2.isSome := by
  refine ⟨?_, ?_, ?_, ?_, ?_, ?_, ?_, ?_⟩
  · intro env fuel isDryRun h
    rw [cleanup.runBranchCleanup]
    dsimp only
    rw [cleanup.fetchPages, h]
  · exact fun env fuel isDryRun => cleanup.mrListing_fail_aborts env fuel isDryRun
  · exact fun env fuel branches => cleanup.delete_fail_aborts env fuel branches
  · exact fun env mrs expired => cleanup.update_fail_aborts env mrs expired
  · exact fun env mrs isDryRun => cleanup.closeExpired_fail_stops_stages env mrs isDryRun
  · exact fun env => cleanup.classify_jira_fail_aborts env
  · exact fun env mr rest => cleanup.classify_jira_notFound_skips env mr rest
  · exact fun env fuel isDryRun => cleanup.branchCleanup_isSome env fuel isDryRun

/-- Witness for C6 amended: `envFail` aborts at the branch listing;
`envFailMR` aborts at the merge-request listing; `envFailDel` aborts at the
first deletion; `envFailUpd` fails the close stage on its failed update and
its later stages never run; `envFailJira` fails classification at the fresh
merge request with a parsable reference; in `envA` a 404 lookup on the same
merge request is skipped; and `envA` completes despite its failing Slack
lookups. -/
theorem error_handling_amended_witness :
    cleanup.runBranchCleanup cleanup.envFail (0 + 1) true =
        ([cleanup.Event.listBranches 0], none) ∧
      (cleanup.runBranchCleanup cleanup.envFailMR 1 false).2 = none ∧
      (cleanup.runBranchCleanup cleanup.envFailDel 1 false).2 = none ∧
      (cleanup.closeExpiredMergeRequests cleanup.envFailUpd [cleanup.mr1] false).2 = none ∧
      cleanup.runMergeRequestStages cleanup.envFailUpd [cleanup.mr1] false =
        ((cleanup.closeExpiredMergeRequests cleanup.envFailUpd [cleanup.mr1] false).1,
          none) ∧
      (cleanup.classifyExpiredLoop cleanup.envFailJira
        ([cleanup.mr1] ++ cleanup.mr3 :: [])).2 = none ∧
      cleanup.classifyExpiredLoop cleanup.envA (cleanup.mr3 :: []) =
        (cleanup.Event.jiraGet (mrtitle.getJiraIssueID cleanup.mr3.title) ::
          (cleanup.classifyExpiredLoop cleanup.envA []).1,
          (cleanup.classifyExpiredLoop cleanup.envA []).2) ∧
      (cleanup.runBranchCleanup cleanup.envA 1 false).2.isSome :=
  ⟨error_handling_amended.1 cleanup.envFail 0 true rfl,
    (error_handling_amended.2.1 cleanup.envFailMR 1 false (by decide)).1,
    (error_handling_amended.2.2.1 cleanup.envFailDel 1
      [cleanup.b1, cleanup.b2, cleanup.b3] (by decide) (by decide)).1,
    error_handling_amended.2.2.2.1 cleanup.envFailUpd [cleanup.mr1] [cleanup.mr1]
      (by decide) (by decide),
    error_handling_amended.2.2.2.2.1 cleanup.envFailUpd [cleanup.mr1] false (by decide),
    error_handling_amended.2.2.2.2.2.1 cleanup.envFailJira [cleanup.mr1] cleanup.mr3 []
      (by decide) (by decide) rfl,
    error_handling_amended.2.2.2.2.2.2.1 cleanup.envA cleanup.mr3 []
      (by decide) (by decide) rfl,
    error_handling_amended.2.2.2.2.2.2.2 cleanup.envA 1 false (by decide) (by decide)
      (fun _ h => cleanup.JiraResult.noConfusion h) (fun _ => rfl) (fun _ => rfl) rfl⟩

/-- C7: in a non-dry-run of the branch cleanup script that fetched
`branches`, every `DeleteBranch` call targets the name of a fetched branch
that is not protected and whose last commit is older than the six-month
cutoff (so a protected branch is never deleted, even when some deletion
fails mid-loop); and when the delete calls succeed, `DeleteBranch` is
invoked exactly once per such branch, in order. -/
theorem deleteBranch_spec (env : cleanup.Env) (fuel : Nat) (branches : List cleanup.Branch)
    (hFetch : (cleanup.fetchPages env.listBranches cleanup.Event.listBranches fuel 0).2 =
      some branches) :
    (∀ nm ∈ cleanup.deleteEvents (cleanup.runBranchCleanup env fuel false).1,
      ∃ b, b ∈ branches ∧ b.name = nm ∧ b.isProtected = false ∧
        b.committedDate < env.sixMonthsAgo) ∧
      ((∀ nm, env.deleteBranchOk nm = true) →
        cleanup.deleteEvents (cleanup.runBranchCleanup env fuel false).1 =
          (branches.filter (fun b => !b.isProtected &&
            decide (b.committedDate < env.sixMonthsAgo))).map cleanup.Branch.name) := by
  constructor
  · intro nm hnm
    rw [cleanup.branchCleanup_deleteEvents env fuel branches hFetch] at hnm
    rw [cleanup.deleteEvents] at hnm
    obtain ⟨e, he, hfe⟩ := List.mem_filterMap.mp hnm
    obtain ⟨b, hbmem, rfl⟩ := cleanup.deleteLoop_shape env _ e he
    have hname : b.name = nm := by simpa using hfe
    rw [cleanup.filterStaleNonProtectedBranches, List.mem_filter] at hbmem
    obtain ⟨hb1, hb2⟩ := hbmem
    simp only [Bool.and_eq_true, Bool.not_eq_true', decide_eq_true_eq] at hb2
    exact ⟨b, hb1, hname, hb2.1, hb2.2⟩
  · intro hDel
    rw [cleanup.branchCleanup_deleteEvents env fuel branches hFetch,
      cleanup.deleteLoop_ok env hDel]
    exact cleanup.deleteEvents_deletes _

/-- Witness for C7 at `envA`: of the three fetched branches, exactly the
non-protected stale one is deleted. -/
theorem deleteBranch_spec_witness :
    cleanup.deleteEvents (cleanup.runBranchCleanup cleanup.envA 1 false).1 =
      ([cleanup.b1, cleanup.b2, cleanup.b3].filter (fun b => !b.isProtected &&
        decide (b.committedDate < cleanup.envA.sixMonthsAgo))).map cleanup.Branch.name :=
  (deleteBranch_spec cleanup.envA 1 [cleanup.b1, cleanup.b2, cleanup.b3] (by decide)).2
    (fun _ => rfl)
